import Mathlib

/-! EffectiveCookbook: the weak-pointer cache (Item 20), the memoizing const
members (Item 16), and small functions of Items 13, 14, 15, 18 and 27.

Shallow embedding of `code/Item20/use_weak_ptr.cpp`,
`code/Item16/const_member.cpp`, `code/Item15/use_constexpr.cpp`,
`code/Item13/use_const_iterator.cpp`, `code/Item27/tag_dispatch.cpp`,
`code/Item14/use_noexcept.cpp` and `code/Item18/use_unique_ptr.cpp`.

* A heap of reference-counted objects stands for the control blocks behind
  `std::shared_ptr` / `std::weak_ptr`.  An object is identified by its index
  in the heap (objects are numbered in order of construction, and a number is
  never reused), its owner count is the `strong` field, and the object is
  destroyed exactly when that count is `0`.  The weak count of a control block
  is not modelled: nothing in the program observes it.
* `std::make_shared` may fail with `std::bad_alloc`; whether it does is an
  input of the model (`allocOk`).  `fastLoadWidget` is the function with the
  insertion by `cache[widgetId]` succeeding; `fastLoadWidgetAlloc` takes the
  allocation of the map node as an input as well (`nodeOk`).
* The function-local `static` map of `fastLoadWidget` is a component of the
  explicit state `World`.
* Concurrent callers of `magicValue` are a step relation over the accesses to
  the shared members, with the mutex as part of the shared state.
* `int` arithmetic is exact arithmetic followed by reduction modulo `2^32`.
-/

namespace Item20

/-- Identity of a heap object: its index in the heap. -/
abbrev ObjId := Nat

/-- A heap object: the payload together with the owner count of its control block. -/
structure Obj (α : Type) where
  payload : α
  strong : Nat
deriving DecidableEq, Repr

/-- The heap: every object constructed so far, dead ones included. -/
abbrev Heap (α : Type) := List (Obj α)

/-- A `std::shared_ptr`: null, or an owning handle to an object. -/
inductive SharedPtr where
  | null
  | own (id : ObjId)
deriving DecidableEq, Repr

/-- A `std::weak_ptr`: empty, or a non-owning observer of an object. -/
inductive WeakPtr where
  | empty
  | obs (id : ObjId)
deriving DecidableEq, Repr

/-- Owner count of object `id` (`0` for an object that was never constructed). -/
def useCount {α : Type} (h : Heap α) (id : ObjId) : Nat :=
  match h[id]? with
  | some o => o.strong
  | none => 0

/-- The call `std::make_shared<T>(v)`: a new object with owner count 1, or
`none` when the allocation throws. -/
def make_shared {α : Type} (h : Heap α) (v : α) (allocOk : Bool) : Option (Heap α × SharedPtr) :=
  if allocOk then some (h ++ [⟨v, 1⟩], SharedPtr.own h.length) else none

/-- Constructing or assigning a `std::weak_ptr` from a `std::shared_ptr`: the
heap is not touched. -/
def WeakPtr.ofShared : SharedPtr → WeakPtr
  | SharedPtr.null => WeakPtr.empty
  | SharedPtr.own id => WeakPtr.obs id

/-- The member `shared_ptr::use_count()`. -/
def SharedPtr.use_count {α : Type} (h : Heap α) : SharedPtr → Nat
  | SharedPtr.null => 0
  | SharedPtr.own id => useCount h id

/-- The member `weak_ptr::use_count()`. -/
def WeakPtr.use_count {α : Type} (h : Heap α) : WeakPtr → Nat
  | WeakPtr.empty => 0
  | WeakPtr.obs id => useCount h id

/-- The member `weak_ptr::expired()`, which is `use_count() == 0`. -/
def WeakPtr.expired {α : Type} (h : Heap α) (w : WeakPtr) : Bool :=
  w.use_count h == 0

/-- The member `weak_ptr::lock()`: `expired() ? shared_ptr() : shared_ptr(*this)`. -/
def WeakPtr.lock {α : Type} (h : Heap α) : WeakPtr → Heap α × SharedPtr
  | WeakPtr.empty => (h, SharedPtr.null)
  | WeakPtr.obs id =>
    match h[id]? with
    | some o =>
      if o.strong = 0 then (h, SharedPtr.null)
      else (h.set id { o with strong := o.strong + 1 }, SharedPtr.own id)
    | none => (h, SharedPtr.null)

/-- Giving up one owning handle (`p = nullptr`, `p.reset()`, or the destructor
of `p`): the owner count goes down by one. -/
def SharedPtr.reset {α : Type} (h : Heap α) : SharedPtr → Heap α
  | SharedPtr.null => h
  | SharedPtr.own id =>
    match h[id]? with
    | some o => h.set id { o with strong := o.strong - 1 }
    | none => h

/-- Giving up `n` owning handles to the same object. -/
def dropOwners {α : Type} (h : Heap α) (id : ObjId) : Nat → Heap α
  | 0 => h
  | n + 1 => dropOwners (SharedPtr.reset h (SharedPtr.own id)) id n

/-- What `basic_usage` observes on its way. -/
structure BasicUsageTrace where
  rcAfterMake : Nat
  rcAfterWeak : Nat
  rcAfterReset : Nat
  expiredAfterReset : Bool
  spw1 : SharedPtr
  spw2 : SharedPtr
  output : List String
  heap : Heap Int
deriving DecidableEq, Repr

/-- The function `basic_usage` (lines 11-46), started on heap `h0`. -/
def basic_usage (h0 : Heap Int) (allocOk : Bool) : Option BasicUsageTrace :=
  match make_shared h0 (42 : Int) allocOk with
  | none => none
  | some (h1, spw) =>
    let wpw := WeakPtr.ofShared spw
    let h2 := SharedPtr.reset h1 spw
    let out1 := if wpw.expired h2 then ["wpw is expired\n"] else []
    let (h3, spw1) := wpw.lock h2
    let out2 :=
      if spw1 = SharedPtr.null then out1 ++ ["wpw is expired\n"]
      else out1 ++ ["wpw is not expired\n"]
    let (h4, spw2) := wpw.lock h3
    let h5 := SharedPtr.reset (SharedPtr.reset h4 spw2) spw1
    some
      { rcAfterMake := spw.use_count h1
        rcAfterWeak := wpw.use_count h1
        rcAfterReset := wpw.use_count h2
        expiredAfterReset := wpw.expired h2
        spw1 := spw1
        spw2 := spw2
        output := out2
        heap := h5 }

/-- The empty class `Widget` of Item 20. -/
inductive Widget where
  | mk
deriving DecidableEq, Repr

/-- The map `std::unordered_map<WidgetId, std::weak_ptr<const Widget>>`, as an
association list with one pair per key. -/
abbrev Cache := List (Int × WeakPtr)

/-- Looking a key up without inserting. -/
def cacheFind : Cache → Int → Option WeakPtr
  | [], _ => none
  | (k1, w) :: rest, k => if k1 = k then some w else cacheFind rest k

/-- The expression `cache[k]`: a key that is absent gets an entry holding an
empty `weak_ptr` first.  The allocation of that entry is taken to succeed here;
`cacheSubscriptAlloc` has it as an input. -/
def cacheSubscript (c : Cache) (k : Int) : Cache × WeakPtr :=
  match cacheFind c k with
  | some w => (c, w)
  | none => (c ++ [(k, WeakPtr.empty)], WeakPtr.empty)

/-- Overwriting the mapped value of every pair with key `k`. -/
def cacheSet : Cache → Int → WeakPtr → Cache
  | [], _, _ => []
  | (k1, w1) :: rest, k, w =>
    if k1 = k then (k1, w) :: cacheSet rest k w else (k1, w1) :: cacheSet rest k w

/-- The statement `cache[k] = p`. -/
def cacheStore (c : Cache) (k : Int) (p : SharedPtr) : Cache :=
  cacheSet (cacheSubscript c k).1 k (WeakPtr.ofShared p)

/-- Program state seen by `fastLoadWidget`: the heap of Widgets and the static cache. -/
structure World where
  heap : Heap Widget
  cache : Cache
deriving DecidableEq, Repr

/-- State at program start: nothing constructed, the static cache empty. -/
def World.init : World := ⟨[], []⟩

/-- How a call ends: it returns a pointer, or `std::bad_alloc` leaves it. -/
inductive Outcome where
  | returned (p : SharedPtr)
  | raised
deriving DecidableEq, Repr

/-- The function `fastLoadWidget` (lines 52-67). -/
def fastLoadWidget (s : World) (widgetId : Int) (allocOk : Bool) : World × Outcome :=
  let (cache1, w) := cacheSubscript s.cache widgetId
  let (heap1, objPtr) := w.lock s.heap
  if objPtr = SharedPtr.null then
    match make_shared heap1 Widget.mk allocOk with
    | none => (⟨heap1, cache1⟩, Outcome.raised)
    | some (heap2, p) => (⟨heap2, cacheStore cache1 widgetId p⟩, Outcome.returned p)
  else (⟨heap1, cache1⟩, Outcome.returned objPtr)

/-- The world once every owning handle to object `v` has been given up; the
cache is not touched by that. -/
def World.dropAll (s : World) (v : ObjId) : World :=
  ⟨dropOwners s.heap v (useCount s.heap v), s.cache⟩

/-- The locals of `test_fastLoadWidget` just before they go out of scope. -/
structure TestLocals where
  spw : SharedPtr
  spw1 : SharedPtr
  spw2 : SharedPtr
  world : World
deriving DecidableEq, Repr

/-- The function `test_fastLoadWidget` (lines 69-74) up to its closing brace;
`a0 a1 a2` say whether the allocation of each call would succeed. -/
def test_fastLoadWidget (s : World) (a0 a1 a2 : Bool) : Option TestLocals :=
  match fastLoadWidget s 1 a0 with
  | (_, Outcome.raised) => none
  | (s1, Outcome.returned spw) =>
    match fastLoadWidget s1 1 a1 with
    | (_, Outcome.raised) => none
    | (s2, Outcome.returned spw1) =>
      match fastLoadWidget s2 2 a2 with
      | (_, Outcome.raised) => none
      | (s3, Outcome.returned spw2) => some ⟨spw, spw1, spw2, s3⟩

/-- A caller of the cache: the world, the owning handles it currently holds,
and (ghost) for every object the key whose load constructed it. -/
structure Client where
  world : World
  held : List ObjId
  producedFor : List Int
deriving DecidableEq, Repr

/-- What a caller can do: call `fastLoadWidget`, or destroy one of its handles. -/
inductive Op where
  | call (k : Int) (allocOk : Bool)
  | drop (i : Nat)
deriving DecidableEq, Repr

/-- One action of the caller. -/
def Client.step (c : Client) : Op → Client
  | Op.call k a =>
    match fastLoadWidget c.world k a with
    | (s, Outcome.returned (SharedPtr.own id)) =>
      ⟨s, id :: c.held,
        c.producedFor ++ List.replicate (s.heap.length - c.world.heap.length) k⟩
    | (s, _) => ⟨s, c.held, c.producedFor⟩
  | Op.drop i =>
    match c.held[i]? with
    | some id =>
      ⟨⟨SharedPtr.reset c.world.heap (SharedPtr.own id), c.world.cache⟩,
        c.held.eraseIdx i, c.producedFor⟩
    | none => c

/-- The caller at program start. -/
def Client.init : Client := ⟨World.init, [], []⟩

/-- A sequential run of caller actions from program start. -/
def Client.run (ops : List Op) : Client :=
  ops.foldl Client.step Client.init

/-- A sequence of `fastLoadWidget` calls, each with its key and with whether its
allocation would succeed; the handles returned are left to the callers. -/
def World.calls (s : World) (cs : List (Int × Bool)) : World :=
  cs.foldl (fun w c => (fastLoadWidget w c.1 c.2).1) s

/-- The expression `cache[k]` with the allocation it may need as an input.  A key
that is present is found and nothing is allocated.  For an absent key the map
allocates the node of the new entry first; when that allocation throws
(`nodeOk = false`) the map is left as it was and the expression has no
value. -/
def cacheSubscriptAlloc (c : Cache) (k : Int) (nodeOk : Bool) : Option (Cache × WeakPtr) :=
  match cacheFind c k with
  | some w => some (c, w)
  | none => if nodeOk then some (c ++ [(k, WeakPtr.empty)], WeakPtr.empty) else none

/-- The function `fastLoadWidget` (lines 52-67) with both of its allocations as
inputs: `nodeOk` for the map node that `cache[widgetId]` on line 57 needs when
the key is absent, `allocOk` for `std::make_shared` on line 63.  On line 64 the
key is present, so `cache[widgetId]` allocates nothing there. -/
def fastLoadWidgetAlloc (s : World) (widgetId : Int) (nodeOk allocOk : Bool) :
    World × Outcome :=
  match cacheSubscriptAlloc s.cache widgetId nodeOk with
  | none => (s, Outcome.raised)
  | some (cache1, w) =>
    let (heap1, objPtr) := w.lock s.heap
    if objPtr = SharedPtr.null then
      match make_shared heap1 Widget.mk allocOk with
      | none => (⟨heap1, cache1⟩, Outcome.raised)
      | some (heap2, p) => (⟨heap2, cacheStore cache1 widgetId p⟩, Outcome.returned p)
    else (⟨heap1, cache1⟩, Outcome.returned objPtr)

/-- A sequence of `fastLoadWidget` calls, each with its key and with whether each
of its two allocations would succeed. -/
def World.callsAlloc (s : World) (cs : List (Int × Bool × Bool)) : World :=
  cs.foldl (fun w c => (fastLoadWidgetAlloc w c.1 c.2.1 c.2.2).1) s

/-- The invariant behind uniqueness per key: every object has a recorded key, and
an object that is alive is the one the entry of its key observes. -/
def Client.Inv (c : Client) : Prop :=
  c.producedFor.length = c.world.heap.length ∧
    ∀ i k, c.producedFor[i]? = some k → 0 < useCount c.world.heap i →
      cacheFind c.world.cache k = some (WeakPtr.obs i)

/-- The caller's handles account for every owner: the owner count of each
object is the number of handles to it that callers hold. -/
def Client.Owned (c : Client) : Prop :=
  ∀ id, useCount c.world.heap id = c.held.count id

end Item20

namespace Item16

namespace thread_safe

/-- The data members of `thread_safe::Widget` (lines 165-168).  The mutex `m`
is held for the whole body of `magicValue` and is free between calls, so a
call is one transition of the two cached members. -/
structure Widget where
  cachedValue : Int
  cacheValid : Bool
deriving DecidableEq, Repr

/-- A newly constructed Widget: `cachedValue{0}`, `cacheValid{false}`. -/
def Widget.new : Widget := ⟨0, false⟩

/-- The lambda `expensiveComputation1` of `magicValue`. -/
def expensiveComputation1 (_ : Unit) : Int := 42

/-- The lambda `expensiveComputation2` of `magicValue`. -/
def expensiveComputation2 (_ : Unit) : Int := 42

/-- One call of `magicValue`: the state it leaves, the value it returns and
(ghost) how often it invoked each of the two expensive computations. -/
structure MagicCall where
  state : Widget
  value : Int
  ran1 : Nat
  ran2 : Nat
deriving DecidableEq, Repr

/-- The member `Widget::magicValue` (lines 146-163). -/
def Widget.magicValue (w : Widget) : MagicCall :=
  if w.cacheValid then ⟨w, w.cachedValue, 0, 0⟩
  else
    let val1 := expensiveComputation1 ()
    let val2 := expensiveComputation2 ()
    let w1 : Widget := { w with cachedValue := val1 + val2 }
    let w2 : Widget := { w1 with cacheValid := true }
    ⟨w2, w2.cachedValue, 1, 1⟩

/-- The state after `n` successive calls of `magicValue`. -/
def Widget.afterCalls (w : Widget) : Nat → Widget
  | 0 => w
  | n + 1 => (w.afterCalls n).magicValue.state

/-- The log of `n` successive calls of `magicValue`: per call, the value returned
and how often each expensive computation was invoked. -/
def Widget.callLog (w : Widget) : Nat → List (Int × Nat × Nat)
  | 0 => []
  | n + 1 =>
    (w.magicValue.value, w.magicValue.ran1, w.magicValue.ran2) :: w.magicValue.state.callLog n

/-- The data members of `thread_safe::Polynomial` (lines 59-61), over any
representation `D` of `double`; the mutex is treated as for `Widget`. -/
structure Polynomial (D : Type) where
  rootsAreValid : Bool
  rootVals : List D

/-- A newly constructed Polynomial: `rootsAreValid{false}`, no roots. -/
def Polynomial.new (D : Type) : Polynomial D := ⟨false, []⟩

/-- The member `Polynomial::roots` (lines 46-56): state left and vector returned. -/
def Polynomial.roots {D : Type} (p : Polynomial D) : Polynomial D × List D :=
  let p1 : Polynomial D := if !p.rootsAreValid then { p with rootsAreValid := true } else p
  (p1, p1.rootVals)

/-- The state after `n` successive calls of `roots`. -/
def Polynomial.afterCalls {D : Type} (p : Polynomial D) : Nat → Polynomial D
  | 0 => p
  | n + 1 => (p.afterCalls n).roots.1

/-! ### Concurrent callers of `magicValue`

Threads are interleaved at the granularity of the accesses to the shared
members.  For `Widget1` and `Widget2` both members are `std::atomic` (with the
default, sequentially consistent ordering), so each load and each store is one
step.  For `Widget` the members are plain and only touched while the mutex is
held, so the same steps are used together with the lock and unlock steps of
the `std::lock_guard`. -/

/-- Which class the threads call `magicValue` of. -/
inductive Variant where
  | widget1
  | widget2
  | widget
deriving DecidableEq, Repr

/-- Where a thread stands inside `magicValue`, with its locals `val1`, `val2`
and, at the end, the value it returns. -/
inductive Pc where
  | lock
  | test
  | hit
  | comp1
  | comp2 (val1 : Int)
  | store1 (val1 val2 : Int)
  | store2 (val1 val2 : Int)
  | ret
  | unlock (v : Int)
  | done (v : Int)
deriving DecidableEq, Repr

/-- What the threads share: the object (its two cached members), the holder of
its mutex if any (class `Widget` only), and (ghost) how often each expensive
computation has been run so far. -/
structure Shared where
  w : Widget
  m : Option Nat
  ran1 : Nat
  ran2 : Nat
deriving DecidableEq, Repr

/-- Where a call begins: `Widget::magicValue` first constructs the lock guard,
the other two go straight to `if (cacheValid)`. -/
def Variant.entry : Variant → Pc
  | Variant.widget => Pc.lock
  | _ => Pc.test

/-- Where a call goes once its return value `v` is read: `Widget::magicValue`
still has to destroy the lock guard, the other two are finished. -/
def Variant.leave (c : Variant) (v : Int) : Pc :=
  match c with
  | Variant.widget => Pc.unlock v
  | _ => Pc.done v

/-- One step of thread `tid`; `none` when the thread cannot move (it waits for the
mutex, or its call has returned).
* `lock`: the `std::lock_guard` constructor, enabled when the mutex is free;
* `test`: `if (cacheValid)`;
* `hit`: `return cachedValue;` of the then-branch;
* `comp1`, `comp2`: the calls of `expensiveComputation1`, `expensiveComputation2`;
* `store1`, `store2`: the two assignments, `cachedValue = val1 + val2;` then
  `cacheValid = true;` in `Widget1` and `Widget`, the other way round in `Widget2`;
* `ret`: `return cachedValue;` of the else-branch;
* `unlock`: the `std::lock_guard` destructor. -/
def threadStep (c : Variant) (tid : Nat) (sh : Shared) : Pc → Option (Shared × Pc)
  | Pc.lock => if sh.m = none then some ({ sh with m := some tid }, Pc.test) else none
  | Pc.test => some (sh, if sh.w.cacheValid then Pc.hit else Pc.comp1)
  | Pc.hit => some (sh, c.leave sh.w.cachedValue)
  | Pc.comp1 => some ({ sh with ran1 := sh.ran1 + 1 }, Pc.comp2 (expensiveComputation1 ()))
  | Pc.comp2 val1 =>
    some ({ sh with ran2 := sh.ran2 + 1 }, Pc.store1 val1 (expensiveComputation2 ()))
  | Pc.store1 val1 val2 =>
    match c with
    | Variant.widget2 => some ({ sh with w := { sh.w with cacheValid := true } }, Pc.store2 val1 val2)
    | _ => some ({ sh with w := { sh.w with cachedValue := val1 + val2 } }, Pc.store2 val1 val2)
  | Pc.store2 val1 val2 =>
    match c with
    | Variant.widget2 => some ({ sh with w := { sh.w with cachedValue := val1 + val2 } }, Pc.ret)
    | _ => some ({ sh with w := { sh.w with cacheValid := true } }, Pc.ret)
  | Pc.ret => some (sh, c.leave sh.w.cachedValue)
  | Pc.unlock v => some ({ sh with m := none }, Pc.done v)
  | Pc.done _ => none

/-- The object and the threads calling `magicValue` on it. -/
structure System where
  shared : Shared
  threads : List Pc
deriving DecidableEq, Repr

/-- A new object and `n` threads, each about to call `magicValue`. -/
def System.init (c : Variant) (n : Nat) : System :=
  ⟨⟨Widget.new, none, 0, 0⟩, List.replicate n c.entry⟩

/-- The scheduler picks thread `tid`: it makes one step, or nothing happens when
it cannot move. -/
def System.step (c : Variant) (s : System) (tid : Nat) : System :=
  match s.threads[tid]? with
  | none => s
  | some pc =>
    match threadStep c tid s.shared pc with
    | none => s
    | some (sh, pc1) => ⟨sh, s.threads.set tid pc1⟩

/-- An interleaving: the threads picked, in order. -/
def System.run (c : Variant) (s : System) (sched : List Nat) : System :=
  sched.foldl (System.step c) s

/-- The state that `n` threads calling `magicValue` on one new object are in
after the interleaving `sched`. -/
def System.after (c : Variant) (n : Nat) (sched : List Nat) : System :=
  System.run c (System.init c n) sched

/-- The interleaving of `n` threads in which thread 0 makes its whole call (nine
steps, when it is the one that computes) and then each other thread makes its
whole call (four steps) in turn. -/
def System.serial (n : Nat) : List Nat :=
  List.replicate 9 0 ++ (List.range n).tail.flatMap (fun t => List.replicate 4 t)

/-- The member values of an object on which nothing was computed yet. -/
def Shared.Fresh (sh : Shared) : Prop :=
  sh.w.cacheValid = false ∧ sh.w.cachedValue = 0 ∧ sh.ran1 = 0 ∧ sh.ran2 = 0

/-- The member values once the computation is published. -/
def Shared.Computed (sh : Shared) : Prop :=
  sh.w.cacheValid = true ∧ sh.w.cachedValue = 84 ∧ sh.ran1 = 1 ∧ sh.ran2 = 1

/-- What holds of the shared state while thread `tid` of class `Widget` stands at
a given place. -/
def Pc.Ok (sh : Shared) (tid : Nat) : Pc → Prop
  | Pc.lock => True
  | Pc.test => sh.m = some tid ∧ (sh.Fresh ∨ sh.Computed)
  | Pc.hit => sh.m = some tid ∧ sh.Computed
  | Pc.comp1 => sh.m = some tid ∧ sh.Fresh
  | Pc.comp2 val1 =>
    sh.m = some tid ∧ val1 = 42 ∧ sh.w.cacheValid = false ∧ sh.w.cachedValue = 0 ∧
      sh.ran1 = 1 ∧ sh.ran2 = 0
  | Pc.store1 val1 val2 =>
    sh.m = some tid ∧ val1 = 42 ∧ val2 = 42 ∧ sh.w.cacheValid = false ∧
      sh.w.cachedValue = 0 ∧ sh.ran1 = 1 ∧ sh.ran2 = 1
  | Pc.store2 _ _ =>
    sh.m = some tid ∧ sh.w.cacheValid = false ∧ sh.w.cachedValue = 84 ∧
      sh.ran1 = 1 ∧ sh.ran2 = 1
  | Pc.ret => sh.m = some tid ∧ sh.Computed
  | Pc.unlock v => sh.m = some tid ∧ v = 84 ∧ sh.Computed
  | Pc.done v => v = 84 ∧ sh.Computed

/-- Whether a thread at this place holds the mutex. -/
def Pc.holdsLock : Pc → Bool
  | Pc.lock => false
  | Pc.done _ => false
  | _ => true

/-- The invariant of the `Widget` system: every thread is consistent with the
shared state, a free mutex means nothing or everything was computed, and a held
mutex is held by a thread inside the critical section. -/
def System.Inv (s : System) : Prop :=
  (∀ (i : Nat) (pc : Pc), s.threads[i]? = some pc → pc.Ok s.shared i) ∧
    (s.shared.m = none → s.shared.Fresh ∨ s.shared.Computed) ∧
    (∀ t, s.shared.m = some t → ∃ pc : Pc, s.threads[t]? = some pc ∧ pc.holdsLock = true)

/-- How far a thread has got: every step raises it, and 8 means returned. -/
def Pc.rank : Pc → Nat
  | Pc.lock => 0
  | Pc.test => 1
  | Pc.comp1 => 2
  | Pc.comp2 _ => 3
  | Pc.store1 _ _ => 4
  | Pc.store2 _ _ => 5
  | Pc.ret => 6
  | Pc.hit => 6
  | Pc.unlock _ => 7
  | Pc.done _ => 8

/-- Progress of the whole system: the sum of the ranks of its threads. -/
def System.progress (s : System) : Nat :=
  (s.threads.map Pc.rank).sum

/-- Whether every call has returned. -/
def System.allDone (s : System) : Bool :=
  s.threads.all (fun pc => pc.rank == 8)

end thread_safe

end Item16

/-! ### Item 15: the `constexpr` power function -/

namespace Item15

/-- The value of type `int` that an exact result `x` is stored as: the one in
`[-2^31, 2^31)` that is congruent to `x` modulo `2^32`. -/
def wrapInt (x : Int) : Int :=
  (x + 2 ^ 31) % 2 ^ 32 - 2 ^ 31

/-- Whether an exact value is representable as an `int`. -/
def IsInt (x : Int) : Prop :=
  -(2 : Int) ^ 31 ≤ x ∧ x < 2 ^ 31

namespace cpp_11

/-- The function `cpp_11::pow` (lines 33-36).  `fuel` bounds the depth of the
recursion; `none` means the bound was reached before `exp == 0` was. -/
def pow (fuel : Nat) (base exp : Int) : Option Int :=
  match fuel with
  | 0 => none
  | fuel + 1 =>
    if exp = 0 then some 1
    else (pow fuel base (wrapInt (exp - 1))).map (fun r => wrapInt (base * r))

end cpp_11

end Item15

/-! ### Item 13: `findAndInsert` -/

namespace Item13

namespace cpp14_standard

/-- The call `std::find(cbegin(c), cend(c), t)` on a sequence: the position of the
first element equal to `t`, or the end position `c.length`. -/
def stdFind {α : Type} [DecidableEq α] : List α → α → Nat
  | [], _ => 0
  | x :: xs, t => if x = t then 0 else stdFind xs t + 1

/-- The call `c.insert(it, v)` on a sequence: `v` is put in front of the element
at position `it` (at the end when `it` is the end position). -/
def seqInsert {α : Type} (c : List α) (it : Nat) (v : α) : List α :=
  c.take it ++ v :: c.drop it

/-- The function template `findAndInsert` (lines 78-91); the container is passed
by reference, so the new contents are the result. -/
def findAndInsert {α : Type} [DecidableEq α] (container : List α) (targetVal insertVal : α) :
    List α :=
  let it := stdFind container targetVal
  seqInsert container it insertVal

/-- The function `test_findAndInsert` (lines 93-98): the final `values` and the
element `values[0]` that is printed. -/
def test_findAndInsert : List Int × Option Int :=
  let values : List Int := []
  let values := findAndInsert values 1983 1998
  (values, values[0]?)

end cpp14_standard

end Item13

/-! ### Item 27: tag dispatch -/

namespace Item27

/-- The call `std::to_string(int)`: the decimal digits, after a minus sign when the
value is negative. -/
def to_string (i : Int) : String :=
  if i < 0 then "-" ++ (Nat.toDigits 10 i.natAbs).asString
  else (Nat.toDigits 10 i.natAbs).asString

/-- The function `nameFromIdx` (lines 23-26). -/
def nameFromIdx (idx : Int) : String :=
  "name" ++ to_string idx

namespace tag_dispatch1

/-- An argument of `logAndAdd`: something a `std::string` is built from (a
`std::string` lvalue or rvalue, a string literal), or an `int`. -/
inductive Arg where
  | str (s : String)
  | int (idx : Int)
deriving DecidableEq, Repr

/-- The trait `std::is_integral` at the type of the argument. -/
def is_integral : Arg → Bool
  | Arg.str _ => false
  | Arg.int _ => true

/-- The overload `logAndAddImpl(T&& name, std::false_type)` (lines 92-97):
`names.emplace(name)`. -/
def logAndAddImplFalse (names : Multiset String) (name : String) : Multiset String :=
  name ::ₘ names

/-- The template `logAndAdd` (lines 87-90) instantiated at a string type, where
`std::is_integral` is `std::false_type`. -/
def logAndAddStr (names : Multiset String) (name : String) : Multiset String :=
  logAndAddImplFalse names name

/-- The overload `logAndAddImpl(int idx, std::true_type)` (lines 99-102): it calls
`logAndAdd` with the `std::string` that `nameFromIdx` returns. -/
def logAndAddImplTrue (names : Multiset String) (idx : Int) : Multiset String :=
  logAndAddStr names (nameFromIdx idx)

/-- The template `logAndAdd` (lines 87-90): dispatch on `std::is_integral`. -/
def logAndAdd (names : Multiset String) (name : Arg) : Multiset String :=
  match name with
  | Arg.int idx => logAndAddImplTrue names idx
  | Arg.str s => logAndAddStr names s

/-- The function `tag_dispatch1::test` (lines 116-123), run on the global `names`. -/
def test (names : Multiset String) : Multiset String :=
  let petName := "Darla"
  let names := logAndAdd names (Arg.str petName)
  let names := logAndAdd names (Arg.str "Persephone")
  let names := logAndAdd names (Arg.str "Patty Dog")
  logAndAdd names (Arg.int 1)

end tag_dispatch1

end Item27

/-! ### Item 16: `Widget1` and `Widget2` in a single thread -/

namespace Item16

namespace thread_safe

/-- The data members of `thread_safe::Widget1` (lines 104-105); in a single thread
a `std::atomic` member is a plain member. -/
structure Widget1 where
  cacheValid : Bool
  cachedValue : Int
deriving DecidableEq, Repr

/-- A newly constructed `Widget1`: `cacheValid{false}`, `cachedValue{0}`. -/
def Widget1.new : Widget1 := ⟨false, 0⟩

/-- The member `Widget1::magicValue` (lines 81-96): the state it leaves and the
value it returns. -/
def Widget1.magicValue (w : Widget1) : Widget1 × Int :=
  if w.cacheValid then (w, w.cachedValue)
  else
    let val1 := expensiveComputation1 ()
    let val2 := expensiveComputation2 ()
    let w1 : Widget1 := { w with cachedValue := val1 + val2 }
    let w2 : Widget1 := { w1 with cacheValid := true }
    (w2, w2.cachedValue)

/-- The state of a `Widget1` after `n` calls of `magicValue`, with the values the
calls returned, first call first. -/
def Widget1.calls (w : Widget1) : Nat → Widget1 × List Int
  | 0 => (w, [])
  | n + 1 =>
    let r := w.magicValue
    let rest := Widget1.calls r.1 n
    (rest.1, r.2 :: rest.2)

/-- The data members of `thread_safe::Widget2` (lines 135-136). -/
structure Widget2 where
  cacheValid : Bool
  cachedValue : Int
deriving DecidableEq, Repr

/-- A newly constructed `Widget2`: `cacheValid{false}`, `cachedValue{0}`. -/
def Widget2.new : Widget2 := ⟨false, 0⟩

/-- The member `Widget2::magicValue` (lines 111-126): the flag is set before the
value is assigned. -/
def Widget2.magicValue (w : Widget2) : Widget2 × Int :=
  if w.cacheValid then (w, w.cachedValue)
  else
    let val1 := expensiveComputation1 ()
    let val2 := expensiveComputation2 ()
    let w1 : Widget2 := { w with cacheValid := true }
    let w2 : Widget2 := { w1 with cachedValue := val1 + val2 }
    (w2, w2.cachedValue)

/-- The state of a `Widget2` after `n` calls of `magicValue`, with the values the
calls returned, first call first. -/
def Widget2.calls (w : Widget2) : Nat → Widget2 × List Int
  | 0 => (w, [])
  | n + 1 =>
    let r := w.magicValue
    let rest := Widget2.calls r.1 n
    (rest.1, r.2 :: rest.2)

/-- The state of a `Widget` after `n` calls of `magicValue`, with the values the
calls returned, first call first. -/
def Widget.calls (w : Widget) : Nat → Widget × List Int
  | 0 => (w, [])
  | n + 1 =>
    let r := w.magicValue
    let rest := Widget.calls r.state n
    (rest.1, r.value :: rest.2)

end thread_safe

end Item16

/-! ### Item 15: the iterative power function -/

namespace Item15

namespace cpp_14

/-- The loop of `cpp_14::pow` (lines 44-47) from the state `i`, `result`; `fuel`
bounds the number of times the condition `i < exp` is tested. -/
def powLoop (fuel : Nat) (base exp i result : Int) : Option Int :=
  match fuel with
  | 0 => none
  | fuel + 1 =>
    if i < exp then powLoop fuel base exp (wrapInt (i + 1)) (wrapInt (result * base))
    else some result

/-- The function `cpp_14::pow` (lines 41-49). -/
def pow (fuel : Nat) (base exp : Int) : Option Int :=
  powLoop fuel base exp 0 1

end cpp_14

end Item15

/-! ### Item 14: the conditionally `noexcept` swaps -/

namespace Item14

namespace cpp11

/-- The call `std::swap(a[i], b[i])` on two arrays; an index outside either array
is not a call the loop makes, and leaves both as they are. -/
def swapAt {T : Type} (a b : List T) (i : Nat) : List T × List T :=
  match a[i]?, b[i]? with
  | some x, some y => (a.set i y, b.set i x)
  | _, _ => (a, b)

/-- The loop of `swap` (lines 77-80) from index `i`, with `n` iterations to go
(`n` is `N - i`). -/
def swapLoop {T : Type} (a b : List T) (i : Nat) : Nat → List T × List T
  | 0 => (a, b)
  | n + 1 => swapLoop (swapAt a b i).1 (swapAt a b i).2 (i + 1) n

/-- The function template `swap(T (&a)[N], T (&b)[N])` (lines 75-81): the two
arrays after the call. -/
def swap {T : Type} (N : Nat) (a b : List T) : List T × List T :=
  swapLoop a b 0 N

/-- The class template `pair` (lines 83-94). -/
structure pair (T1 T2 : Type) where
  first : T1
  second : T2
deriving DecidableEq, Repr

/-- The call `std::swap(x, y)` on two objects. -/
def stdSwap {T : Type} (x y : T) : T × T :=
  (y, x)

/-- The member `pair::swap` (lines 85-90): `*this` and `p` after the call. -/
def pair.swap {T1 T2 : Type} (self p : pair T1 T2) : pair T1 T2 × pair T1 T2 :=
  let f := stdSwap self.first p.first
  let s := stdSwap self.second p.second
  (⟨f.1, s.1⟩, ⟨f.2, s.2⟩)

/-- The first three statements of `test_swap` (lines 114-116): `a` and `b` after
`swap(a, b)`. -/
def test_swap : List Int × List Int :=
  let a : List Int := [1, 2, 3]
  let b : List Int := [4, 5, 6]
  swap 3 a b

end cpp11

end Item14

/-! ### Item 18: `makeInvestment` -/

namespace Item18

/-- The dynamic type of an object derived from `Investment`. -/
inductive Kind where
  | Stock
  | Bond
  | RealEstate
deriving DecidableEq, Repr

/-- The program state `makeInvestment` works on: the three global flags, the
`Investment` objects constructed so far (an object is identified by its index;
the flag says whether it is still alive), and the lines printed. -/
structure State where
  needStock : Bool
  needBond : Bool
  needRealEstate : Bool
  heap : List (Kind × Bool)
  out : List String
deriving DecidableEq, Repr

/-- The state at program start (lines 78-80): only `needStock` is set. -/
def State.init : State :=
  ⟨true, false, false, [], []⟩

/-- The line a constructor prints. -/
def Kind.ctorLine : Kind → String
  | Kind.Stock => "Stock::Stock()\n"
  | Kind.Bond => "Bond::Bond()\n"
  | Kind.RealEstate => "RealEstate::RealEstate()\n"

/-- The line a destructor prints. -/
def Kind.dtorLine : Kind → String
  | Kind.Stock => "Stock::~Stock()\n"
  | Kind.Bond => "Bond::~Bond()\n"
  | Kind.RealEstate => "RealEstate::~RealEstate()\n"

/-- A `std::unique_ptr<Investment, decltype(delInvmt)>`: null, or the owner of an
object. -/
abbrev UniquePtr := Option Nat

/-- The expression `new K()`: the object is constructed (its constructor prints
its line) and its address returned; the allocation is taken to succeed. -/
def newObj (s : State) (k : Kind) : State × Nat :=
  ({ s with heap := s.heap ++ [(k, true)], out := s.out ++ [k.ctorLine] }, s.heap.length)

/-- The deleter `delInvmt` (lines 101-104) on a non-null pointer: it prints its
line and deletes the object, whose destructor prints its line. -/
def delInvmt (s : State) (p : Nat) : State :=
  match s.heap[p]? with
  | some (k, _) =>
    { s with heap := s.heap.set p (k, false),
             out := s.out ++ ["deleting Investment\n", k.dtorLine] }
  | none => s

/-- The member `unique_ptr::reset(p)`: the pointer owned so far, if any, goes to
the deleter. -/
def UniquePtr.reset (s : State) (self : UniquePtr) (p : Nat) : State × UniquePtr :=
  match self with
  | none => (s, some p)
  | some old => (delInvmt s old, some p)

/-- The destructor of a `unique_ptr`: a non-null pointer goes to the deleter. -/
def UniquePtr.destroy (s : State) (self : UniquePtr) : State :=
  match self with
  | none => s
  | some p => delInvmt s p

namespace cpp11

/-- The function template `cpp11::makeInvestment` (lines 107-123), called without
arguments. -/
def makeInvestment (s : State) : State × UniquePtr :=
  let pInv : UniquePtr := none
  if s.needStock then
    let (s1, p) := newObj s Kind.Stock
    UniquePtr.reset s1 pInv p
  else if s.needBond then
    let (s1, p) := newObj s Kind.Bond
    UniquePtr.reset s1 pInv p
  else if s.needRealEstate then
    let (s1, p) := newObj s Kind.RealEstate
    UniquePtr.reset s1 pInv p
  else (s, pInv)

end cpp11

/-- The locals of `test_makeInvestment11` at its closing brace, and the state
there. -/
structure TestLocals where
  pInv : UniquePtr
  pInv2 : UniquePtr
  pInv3 : UniquePtr
  state : State
deriving DecidableEq, Repr

/-- The body of `test_makeInvestment11` (lines 156-163). -/
def test_makeInvestment11_body (s : State) : TestLocals :=
  let (s1, pInv) := cpp11.makeInvestment s
  let s2 := { s1 with needStock := false }
  let s3 := { s2 with needBond := true }
  let (s4, pInv2) := cpp11.makeInvestment s3
  let s5 := { s4 with needBond := false }
  let s6 := { s5 with needRealEstate := true }
  let (s7, pInv3) := cpp11.makeInvestment s6
  ⟨pInv, pInv2, pInv3, s7⟩

/-- The function `test_makeInvestment11` (lines 152-165): the body, then the
locals are destroyed in reverse order of declaration. -/
def test_makeInvestment11 (s : State) : State :=
  let r := test_makeInvestment11_body s
  UniquePtr.destroy (UniquePtr.destroy (UniquePtr.destroy r.state r.pInv3) r.pInv2) r.pInv

/-- The dynamic type of the object a pointer owns, if any. -/
def kindOf (s : State) (p : UniquePtr) : Option Kind :=
  match p with
  | none => none
  | some i => (s.heap[i]?).map Prod.fst

end Item18

/-! ### Item 20: objects that point to each other -/

namespace Item20

/-- An object of class `A`, `A2`, `A3` or `B` (lines 79-122) with its data
members. -/
inductive Node where
  | A (pb : SharedPtr) (value : Int)
  | A2 (pb : SharedPtr) (value : Int)
  | A3 (pb : SharedPtr) (volue : Int)
  | B (pa : SharedPtr) (pa2 : Option ObjId) (pa3 : WeakPtr)
deriving DecidableEq, Repr

/-- The program state of the `test_circular_ref` functions: the heap of `A`, `A2`,
`A3` and `B` objects and the lines printed. -/
structure Mem where
  heap : Heap Node
  out : List String
deriving DecidableEq, Repr

/-- The line the destructor of an object prints. -/
def Node.dtorLine : Node → String
  | Node.A _ _ => "A is destroyed\n"
  | Node.A2 _ _ => "A2 is destroyed\n"
  | Node.A3 _ _ => "A3 is destroyed\n"
  | Node.B _ _ _ => "B is destroyed\n"

/-- The one `std::shared_ptr` member of an object: `pb` in `A`, `A2`, `A3`, and
`pa` in `B`. -/
def Node.member : Node → SharedPtr
  | Node.A pb _ => pb
  | Node.A2 pb _ => pb
  | Node.A3 pb _ => pb
  | Node.B pa _ _ => pa

/-- The object with its `std::shared_ptr` member replaced. -/
def Node.setMember : Node → SharedPtr → Node
  | Node.A _ value, p => Node.A p value
  | Node.A2 _ value, p => Node.A2 p value
  | Node.A3 _ volue, p => Node.A3 p volue
  | Node.B _ pa2 pa3, p => Node.B p pa2 pa3

/-- The object with its raw pointer member `pa2` replaced (class `B` only). -/
def Node.setRaw : Node → Option ObjId → Node
  | Node.B pa _ pa3, q => Node.B pa q pa3
  | n, _ => n

/-- The object with its `std::weak_ptr` member `pa3` replaced (class `B` only). -/
def Node.setWeak : Node → WeakPtr → Node
  | Node.B pa pa2 _, w => Node.B pa pa2 w
  | n, _ => n

/-- The destructor of a `std::shared_ptr`: the owner count goes down by one; when
it was the last owner the object is destroyed, which runs the destructor body
(it prints its line) and then destroys the object's own `std::shared_ptr`
member.  `fuel` bounds the length of such a chain of destructions. -/
def release : Nat → Mem → SharedPtr → Option Mem
  | _, m, SharedPtr.null => some m
  | 0, _, SharedPtr.own _ => none
  | fuel + 1, m, SharedPtr.own id =>
    match m.heap[id]? with
    | none => some m
    | some o =>
      if o.strong = 1 then
        release fuel
          ⟨m.heap.set id { o with strong := 0 }, m.out ++ [o.payload.dtorLine]⟩
          o.payload.member
      else some ⟨m.heap.set id { o with strong := o.strong - 1 }, m.out⟩

/-- Copying a `std::shared_ptr`: one more owner of its object. -/
def addOwner (h : Heap Node) : SharedPtr → Heap Node
  | SharedPtr.null => h
  | SharedPtr.own id =>
    match h[id]? with
    | some o => h.set id { o with strong := o.strong + 1 }
    | none => h

/-- Changing the payload of the object `obj` points to; `none` when there is no
such object. -/
def updateObj (h : Heap Node) (obj : SharedPtr) (f : Node → Node) : Option (Heap Node) :=
  match obj with
  | SharedPtr.null => none
  | SharedPtr.own id =>
    match h[id]? with
    | some o => some (h.set id { o with payload := f o.payload })
    | none => none

/-- The assignment `obj->member = src` to the `std::shared_ptr` member: `src` is
copied, stored, and the value the member had is destroyed. -/
def assignMember (fuel : Nat) (m : Mem) (obj src : SharedPtr) : Option Mem :=
  match obj with
  | SharedPtr.null => none
  | SharedPtr.own id =>
    match m.heap[id]? with
    | none => none
    | some o =>
      match updateObj (addOwner m.heap src) obj (fun n => n.setMember src) with
      | none => none
      | some h => release fuel ⟨h, m.out⟩ o.payload.member

/-- The member `shared_ptr::get()`. -/
def SharedPtr.get : SharedPtr → Option ObjId
  | SharedPtr.null => none
  | SharedPtr.own id => some id

/-- The function `test_circular_ref` (lines 136-142) up to its closing brace: the
state and the locals `pa`, `pb`. -/
def test_circular_ref_body (fuel : Nat) (m : Mem) (a0 a1 : Bool) :
    Option (Mem × SharedPtr × SharedPtr) :=
  match make_shared m.heap (Node.A SharedPtr.null 0) a0 with
  | none => none
  | some (h1, pa) =>
    match make_shared h1 (Node.B SharedPtr.null none WeakPtr.empty) a1 with
    | none => none
    | some (h2, pb) =>
      match assignMember fuel ⟨h2, m.out⟩ pa pb with
      | none => none
      | some m3 =>
        match assignMember fuel m3 pb pa with
        | none => none
        | some m4 => some (m4, pa, pb)

/-- The function `test_circular_ref`: the body, then `pb` and `pa` are destroyed,
in this order. -/
def test_circular_ref (fuel : Nat) (m : Mem) (a0 a1 : Bool) : Option Mem :=
  match test_circular_ref_body fuel m a0 a1 with
  | none => none
  | some (m4, pa, pb) =>
    match release fuel m4 pb with
    | none => none
    | some m5 => release fuel m5 pa

/-- The function `test_circular_ref2` (lines 144-157): `pa2` lives in the inner
block and is destroyed at its end, `pb` at the end of the function. -/
def test_circular_ref2 (fuel : Nat) (m : Mem) (a0 a1 : Bool) : Option Mem :=
  match make_shared m.heap (Node.B SharedPtr.null none WeakPtr.empty) a0 with
  | none => none
  | some (h1, pb) =>
    match make_shared h1 (Node.A2 SharedPtr.null 0) a1 with
    | none => none
    | some (h2, pa2) =>
      match assignMember fuel ⟨h2, m.out⟩ pa2 pb with
      | none => none
      | some m3 =>
        match updateObj m3.heap pb (fun n => n.setRaw pa2.get) with
        | none => none
        | some h4 =>
          match release fuel ⟨h4, m3.out⟩ pa2 with
          | none => none
          | some m5 => release fuel m5 pb

/-- The function `test_circular_ref3` (lines 164-170) up to its closing brace: the
state and the locals `pa3`, `pb`. -/
def test_circular_ref3_body (fuel : Nat) (m : Mem) (a0 a1 : Bool) :
    Option (Mem × SharedPtr × SharedPtr) :=
  match make_shared m.heap (Node.A3 SharedPtr.null 0) a0 with
  | none => none
  | some (h1, pa3) =>
    match make_shared h1 (Node.B SharedPtr.null none WeakPtr.empty) a1 with
    | none => none
    | some (h2, pb) =>
      match assignMember fuel ⟨h2, m.out⟩ pa3 pb with
      | none => none
      | some m3 =>
        match updateObj m3.heap pb (fun n => n.setWeak (WeakPtr.ofShared pa3)) with
        | none => none
        | some h4 => some (⟨h4, m3.out⟩, pa3, pb)

/-- The function `test_circular_ref3`: the body, then `pb` and `pa3` are destroyed,
in this order. -/
def test_circular_ref3 (fuel : Nat) (m : Mem) (a0 a1 : Bool) : Option Mem :=
  match test_circular_ref3_body fuel m a0 a1 with
  | none => none
  | some (m4, pa3, pb) =>
    match release fuel m4 pb with
    | none => none
    | some m5 => release fuel m5 pa3

/-- The calls `test_circular_ref(); test_circular_ref2(); test_circular_ref3();`
of `main` (lines 176-178), started with no such object constructed and nothing
printed by them yet. -/
def main_circular (fuel : Nat) : Option Mem :=
  match test_circular_ref fuel ⟨[], []⟩ true true with
  | none => none
  | some m1 =>
    match test_circular_ref2 fuel m1 true true with
    | none => none
    | some m2 => test_circular_ref3 fuel m2 true true

/-- No two keys observe the same object, and every observed object was
constructed: each entry that observes an object observes one that was produced
for its key. -/
def Client.Keyed (c : Client) : Prop :=
  c.producedFor.length = c.world.heap.length ∧
    ∀ (j : Int) (id : ObjId), cacheFind c.world.cache j = some (WeakPtr.obs id) →
      c.producedFor[id]? = some j

end Item20

/-! ## Heap and map lemmas -/

namespace Item20

theorem useCount_set {α : Type} (h : Heap α) (id j : ObjId) (o : Obj α) :
    useCount (h.set id o) j = if id = j ∧ id < h.length then o.strong else useCount h j := by
  unfold useCount
  by_cases hij : id = j
  · subst hij
    by_cases hlt : id < h.length
    · simp [List.getElem?_set, hlt]
    · have hlen : (h.set id o).length ≤ id := by
        rw [List.length_set]
        exact Nat.le_of_not_lt hlt
      rw [List.getElem?_eq_none hlen, List.getElem?_eq_none (Nat.le_of_not_lt hlt)]
      simp [hlt]
  · simp [List.getElem?_set, hij]

theorem useCount_pos_lt {α : Type} (h : Heap α) (id : ObjId) (hl : 0 < useCount h id) :
    id < h.length := by
  unfold useCount at hl
  by_contra hge
  rw [List.getElem?_eq_none (Nat.le_of_not_lt hge)] at hl
  simp at hl

theorem useCount_append_lt {α : Type} (h t : Heap α) (id : ObjId) (hlt : id < h.length) :
    useCount (h ++ t) id = useCount h id := by
  unfold useCount
  rw [List.getElem?_append_left hlt]

theorem useCount_append_new {α : Type} (h : Heap α) (o : Obj α) :
    useCount (h ++ [o]) h.length = o.strong := by
  unfold useCount
  simp

theorem lock_live {α : Type} (h : Heap α) (id : ObjId) (hl : 0 < useCount h id) :
    ∃ o, h[id]? = some o ∧ o.strong = useCount h id ∧
      (WeakPtr.obs id).lock h = (h.set id { o with strong := o.strong + 1 }, SharedPtr.own id) := by
  unfold useCount at hl
  cases hget : h[id]? with
  | none => simp [hget] at hl
  | some o =>
    simp only [hget] at hl
    refine ⟨o, rfl, ?_, ?_⟩
    · simp [useCount, hget]
    · simp [WeakPtr.lock, hget, Nat.pos_iff_ne_zero.mp hl]

theorem lock_expired {α : Type} (h : Heap α) (w : WeakPtr) (he : w.use_count h = 0) :
    w.lock h = (h, SharedPtr.null) := by
  cases w with
  | empty => rfl
  | obs id =>
    simp only [WeakPtr.use_count, useCount] at he
    cases hget : h[id]? with
    | none => simp [WeakPtr.lock, hget]
    | some o =>
      simp only [hget] at he
      simp [WeakPtr.lock, hget, he]

theorem cacheFind_append (c d : Cache) (k : Int) :
    cacheFind (c ++ d) k = match cacheFind c k with
      | some w => some w
      | none => cacheFind d k := by
  induction c with
  | nil => simp [cacheFind]
  | cons e rest ih =>
    obtain ⟨k1, w1⟩ := e
    by_cases hk : k1 = k
    · simp [cacheFind, hk]
    · simp [cacheFind, hk, ih]

theorem cacheFind_subscript_same (c : Cache) (k : Int) :
    cacheFind (cacheSubscript c k).1 k = some (cacheSubscript c k).2 := by
  unfold cacheSubscript
  cases hf : cacheFind c k with
  | some w => simp [hf]
  | none => simp [cacheFind_append, hf, cacheFind]

theorem cacheFind_subscript_other (c : Cache) (k j : Int) (hjk : j ≠ k) :
    cacheFind (cacheSubscript c k).1 j = cacheFind c j := by
  unfold cacheSubscript
  cases hf : cacheFind c k with
  | some w => simp
  | none =>
    simp only [cacheFind_append, cacheFind, if_neg (Ne.symm hjk)]
    cases cacheFind c j <;> rfl

theorem cacheSubscript_idem (c : Cache) (k : Int) :
    (cacheSubscript (cacheSubscript c k).1 k).1 = (cacheSubscript c k).1 := by
  have h := cacheFind_subscript_same c k
  generalize (cacheSubscript c k).1 = c1 at h
  simp [cacheSubscript, h]

theorem cacheFind_cacheSet_same (c : Cache) (k : Int) (w : WeakPtr)
    (hin : (cacheFind c k).isSome = true) : cacheFind (cacheSet c k w) k = some w := by
  induction c with
  | nil => simp [cacheFind] at hin
  | cons e rest ih =>
    obtain ⟨k1, w1⟩ := e
    by_cases hk : k1 = k
    · simp [cacheSet, cacheFind, hk]
    · simp only [cacheFind, if_neg hk] at hin
      simp [cacheSet, cacheFind, hk, ih hin]

theorem cacheFind_cacheSet_other (c : Cache) (k j : Int) (w : WeakPtr) (hjk : j ≠ k) :
    cacheFind (cacheSet c k w) j = cacheFind c j := by
  induction c with
  | nil => simp [cacheSet, cacheFind]
  | cons e rest ih =>
    obtain ⟨k1, w1⟩ := e
    by_cases hk : k1 = k
    · subst hk
      simp [cacheSet, cacheFind, Ne.symm hjk, ih]
    · by_cases hj : k1 = j
      · subst hj
        simp [cacheSet, cacheFind, hk]
      · simp [cacheSet, cacheFind, hk, hj, ih]

theorem cacheFind_store_same (c : Cache) (k : Int) (p : SharedPtr) :
    cacheFind (cacheStore c k p) k = some (WeakPtr.ofShared p) := by
  unfold cacheStore
  apply cacheFind_cacheSet_same
  rw [cacheFind_subscript_same]
  rfl

theorem cacheFind_store_other (c : Cache) (k j : Int) (p : SharedPtr) (hjk : j ≠ k) :
    cacheFind (cacheStore c k p) j = cacheFind c j := by
  unfold cacheStore
  rw [cacheFind_cacheSet_other _ _ _ _ hjk, cacheFind_subscript_other _ _ _ hjk]

/-- A call that finds a live entry: the heap changes by one more owner of the object
found, the cache does not change, and the object found is returned. -/
theorem fastLoadWidget_hit (s : World) (k : Int) (id : ObjId) (allocOk : Bool)
    (hentry : cacheFind s.cache k = some (WeakPtr.obs id))
    (hlive : 0 < useCount s.heap id) :
    ∃ o, s.heap[id]? = some o ∧ o.strong = useCount s.heap id ∧
      fastLoadWidget s k allocOk =
        (⟨s.heap.set id { o with strong := o.strong + 1 }, s.cache⟩,
          Outcome.returned (SharedPtr.own id)) := by
  obtain ⟨o, hget, hstrong, hlock⟩ := lock_live s.heap id hlive
  refine ⟨o, hget, hstrong, ?_⟩
  simp [fastLoadWidget, cacheSubscript, hentry, hlock]

/-- A call that finds no live entry: it loads, or raises when the allocation fails. -/
theorem fastLoadWidget_miss (s : World) (k : Int) (allocOk : Bool)
    (hmiss : ∀ w, cacheFind s.cache k = some w → w.use_count s.heap = 0) :
    fastLoadWidget s k allocOk =
      if allocOk then
        (⟨s.heap ++ [⟨Widget.mk, 1⟩],
            cacheSet (cacheSubscript s.cache k).1 k (WeakPtr.obs s.heap.length)⟩,
          Outcome.returned (SharedPtr.own s.heap.length))
      else (⟨s.heap, (cacheSubscript s.cache k).1⟩, Outcome.raised) := by
  have hexp : (cacheSubscript s.cache k).2.use_count s.heap = 0 := by
    unfold cacheSubscript
    cases hf : cacheFind s.cache k with
    | some w => simpa using hmiss w hf
    | none => simp [WeakPtr.use_count]
  have hlock := lock_expired s.heap _ hexp
  cases allocOk with
  | false => simp [fastLoadWidget, hlock, make_shared]
  | true =>
    simp [fastLoadWidget, hlock, make_shared, cacheStore, cacheSubscript_idem, WeakPtr.ofShared]

theorem hit_or_miss (s : World) (k : Int) :
    (∃ id, cacheFind s.cache k = some (WeakPtr.obs id) ∧ 0 < useCount s.heap id) ∨
      (∀ w, cacheFind s.cache k = some w → w.use_count s.heap = 0) := by
  cases hf : cacheFind s.cache k with
  | none => right; intro w hw; cases hw
  | some w0 =>
    cases w0 with
    | empty => right; intro w hw; cases hw; rfl
    | obs id =>
      by_cases hl : 0 < useCount s.heap id
      · left; exact ⟨id, rfl, hl⟩
      · right; intro w hw; cases hw
        simpa [WeakPtr.use_count] using hl

theorem length_reset {α : Type} (h : Heap α) (p : SharedPtr) :
    (SharedPtr.reset h p).length = h.length := by
  cases p with
  | null => rfl
  | own id =>
    simp only [SharedPtr.reset]
    cases h[id]? <;> simp

theorem useCount_reset {α : Type} (h : Heap α) (id j : ObjId) :
    useCount (SharedPtr.reset h (SharedPtr.own id)) j =
      if id = j then useCount h id - 1 else useCount h j := by
  simp only [SharedPtr.reset]
  cases hget : h[id]? with
  | none =>
    by_cases hij : id = j
    · subst hij; simp [useCount, hget]
    · simp [hij]
  | some o =>
    have hlt : id < h.length := by
      by_contra hge
      rw [List.getElem?_eq_none (Nat.le_of_not_lt hge)] at hget
      cases hget
    rw [useCount_set]
    by_cases hij : id = j
    · subst hij; simp [hlt, useCount, hget]
    · simp [hij]

theorem length_dropOwners {α : Type} (h : Heap α) (id : ObjId) (n : Nat) :
    (dropOwners h id n).length = h.length := by
  induction n generalizing h with
  | zero => rfl
  | succ n ih => simp [dropOwners, ih, length_reset]

theorem useCount_dropOwners {α : Type} (h : Heap α) (id j : ObjId) (n : Nat) :
    useCount (dropOwners h id n) j = if id = j then useCount h id - n else useCount h j := by
  induction n generalizing h with
  | zero =>
    by_cases hij : id = j
    · subst hij; simp [dropOwners]
    · simp [dropOwners, hij]
  | succ n ih =>
    simp only [dropOwners, ih, useCount_reset]
    by_cases hij : id = j
    · simp [hij]; omega
    · simp [hij]

/-- When a call returns an object, the entry of the key observes that object
afterwards and the object is alive. -/
theorem fastLoadWidget_returned (s : World) (k : Int) (allocOk : Bool) (v : ObjId)
    (hret : (fastLoadWidget s k allocOk).2 = Outcome.returned (SharedPtr.own v)) :
    cacheFind (fastLoadWidget s k allocOk).1.cache k = some (WeakPtr.obs v) ∧
      0 < useCount (fastLoadWidget s k allocOk).1.heap v := by
  rcases hit_or_miss s k with ⟨id, hentry, hlive⟩ | hmiss
  · obtain ⟨o, hget, hstrong, hcall⟩ := fastLoadWidget_hit s k id allocOk hentry hlive
    rw [hcall] at hret ⊢
    simp only [Outcome.returned.injEq, SharedPtr.own.injEq] at hret
    subst hret
    refine ⟨hentry, ?_⟩
    simp only
    rw [useCount_set]
    simp [useCount_pos_lt _ _ hlive]
  · rw [fastLoadWidget_miss s k allocOk hmiss] at hret ⊢
    cases allocOk with
    | false => simp at hret
    | true =>
      simp only [if_true, Outcome.returned.injEq, SharedPtr.own.injEq] at hret ⊢
      subst hret
      refine ⟨?_, ?_⟩
      · apply cacheFind_cacheSet_same
        rw [cacheFind_subscript_same]
        rfl
      · rw [useCount_append_new]
        exact Nat.one_pos

/-- A call raises only when it found no live entry and the allocation failed. -/
theorem fastLoadWidget_raised (s : World) (k : Int) (allocOk : Bool)
    (hfail : (fastLoadWidget s k allocOk).2 = Outcome.raised) :
    allocOk = false ∧ ∀ w, cacheFind s.cache k = some w → w.use_count s.heap = 0 := by
  rcases hit_or_miss s k with ⟨id, hentry, hlive⟩ | hmiss
  · obtain ⟨o, _, _, hcall⟩ := fastLoadWidget_hit s k id allocOk hentry hlive
    rw [hcall] at hfail
    cases hfail
  · refine ⟨?_, hmiss⟩
    rw [fastLoadWidget_miss s k allocOk hmiss] at hfail
    cases allocOk with
    | false => rfl
    | true => simp at hfail

theorem useCount_of_le {α : Type} (h : Heap α) (id : ObjId) (hle : h.length ≤ id) :
    useCount h id = 0 := by
  unfold useCount
  rw [List.getElem?_eq_none hle]

theorem count_eraseIdx_getElem? (l : List ObjId) (i : Nat) (a b : ObjId)
    (h : l[i]? = some a) :
    (l.eraseIdx i).count b = if a = b then l.count b - 1 else l.count b := by
  induction l generalizing i with
  | nil => simp at h
  | cons x xs ih =>
    cases i with
    | zero =>
      simp only [List.getElem?_cons_zero, Option.some.injEq] at h
      subst h
      by_cases hab : x = b
      · subst hab; simp
      · simp [List.count_cons, hab]
    | succ i =>
      simp only [List.getElem?_cons_succ] at h
      simp only [List.eraseIdx_cons_succ, List.count_cons, ih i h]
      by_cases hab : a = b
      · subst hab
        have hpos : 0 < xs.count a := List.count_pos_iff.mpr (List.getElem?_mem h)
        simp only [if_true]
        omega
      · simp [hab]

theorem Client.owned_init : Client.init.Owned := by
  intro id
  simp [Client.init, World.init, useCount]

theorem Client.owned_step (c : Client) (op : Op) (hown : c.Owned) : (c.step op).Owned := by
  cases op with
  | drop n =>
    simp only [Client.step]
    cases hget : c.held[n]? with
    | none => exact hown
    | some id =>
      intro j
      have h1 : useCount c.world.heap id = c.held.count id := hown id
      have h2 : useCount c.world.heap j = c.held.count j := hown j
      simp only [useCount_reset, count_eraseIdx_getElem? _ _ _ j hget, h1, h2]
      by_cases hid : id = j
      · subst hid; simp
      · simp [hid]
  | call k a =>
    rcases hit_or_miss c.world k with ⟨id, hentry, hlive⟩ | hmiss
    · obtain ⟨o, hget, hstrong, hcall⟩ := fastLoadWidget_hit c.world k id a hentry hlive
      simp only [Client.step, hcall]
      intro j
      simp only [useCount_set, List.count_cons, useCount_pos_lt _ _ hlive, and_true, hstrong]
      by_cases hid : id = j
      · subst hid; simp [hown id]
      · simp [hid, hown j]
    · have hcall := fastLoadWidget_miss c.world k a hmiss
      cases a with
      | false =>
        simp only [Bool.false_eq_true, if_false] at hcall
        simp only [Client.step, hcall]
        exact hown
      | true =>
        simp only [if_true] at hcall
        simp only [Client.step, hcall]
        intro j
        simp only [List.count_cons]
        rcases Nat.lt_trichotomy j c.world.heap.length with hlt | heq | hgt
        · rw [useCount_append_lt _ _ _ hlt, hown j]
          simp [Nat.ne_of_gt hlt]
        · subst heq
          rw [useCount_append_new, ← hown, useCount_of_le _ _ (Nat.le_refl _)]
          simp
        · rw [useCount_of_le _ _ (by simp; omega), ← hown,
            useCount_of_le _ _ (Nat.le_of_lt hgt)]
          simp [Nat.ne_of_lt hgt]

theorem Client.owned_foldl (ops : List Op) (c : Client) (hown : c.Owned) :
    (ops.foldl Client.step c).Owned := by
  induction ops generalizing c with
  | nil => exact hown
  | cons op rest ih => exact ih _ (Client.owned_step c op hown)

/-! ## The claims about the cache -/

/-- C1 (cache hit). When the entry of `k` observes an object that still has an
owner, `fastLoadWidget k` returns an owning handle to that very object, constructs
no Widget (the heap keeps its length and its payloads), leaves the cache as it
is, and the only change is one more owner of that object; this holds whether or
not an allocation would succeed.  In `test_fastLoadWidget` the two calls
`fastLoadWidget(1)` return the same object. -/
theorem C1_cache_hit (s : World) (k : Int) (id : ObjId) (allocOk : Bool)
    (hentry : cacheFind s.cache k = some (WeakPtr.obs id))
    (hlive : 0 < useCount s.heap id) :
    (fastLoadWidget s k allocOk).2 = Outcome.returned (SharedPtr.own id) ∧
      (fastLoadWidget s k allocOk).1.heap.length = s.heap.length ∧
      (fastLoadWidget s k allocOk).1.heap.map Obj.payload = s.heap.map Obj.payload ∧
      (fastLoadWidget s k allocOk).1.cache = s.cache ∧
      useCount (fastLoadWidget s k allocOk).1.heap id = useCount s.heap id + 1 ∧
      (∀ j, j ≠ id → useCount (fastLoadWidget s k allocOk).1.heap j = useCount s.heap j) ∧
      (∀ a1, ∃ r, test_fastLoadWidget World.init true a1 true = some r ∧
        r.spw = r.spw1 ∧ r.spw = SharedPtr.own 0 ∧ r.world.heap.length = 2) := by
  obtain ⟨o, hget, hstrong, hcall⟩ := fastLoadWidget_hit s k id allocOk hentry hlive
  have hlt := useCount_pos_lt _ _ hlive
  rw [hcall]
  refine ⟨rfl, by simp, ?_, rfl, ?_, ?_, ?_⟩
  · apply List.ext_getElem?
    intro i
    simp only [List.getElem?_map, List.getElem?_set]
    by_cases hi : id = i
    · subst hi; simp [hlt, hget]
    · simp [hi]
  · simp only
    rw [useCount_set]
    simp [hlt, hstrong]
  · intro j hj
    simp only
    rw [useCount_set]
    simp [Ne.symm hj]
  · intro a1
    cases a1 <;> exact ⟨_, rfl, by decide, by decide, by decide⟩

/-- C1 at a concrete state: one Widget with one owner, observed by the entry of key 7. -/
theorem C1_cache_hit_witness :
    (fastLoadWidget ⟨[⟨Widget.mk, 1⟩], [(7, WeakPtr.obs 0)]⟩ 7 false).2
        = Outcome.returned (SharedPtr.own 0) ∧
      (fastLoadWidget ⟨[⟨Widget.mk, 1⟩], [(7, WeakPtr.obs 0)]⟩ 7 false).1.heap.length = 1 :=
  have h := C1_cache_hit ⟨[⟨Widget.mk, 1⟩], [(7, WeakPtr.obs 0)]⟩ 7 0 false
    (by decide) (by decide)
  ⟨h.1, h.2.1⟩

/-- C2 (cache miss). When `k` has no entry, or its entry is expired, and the
allocation succeeds, `fastLoadWidget k` constructs exactly one Widget (the heap
is the old heap with one new object appended), returns an owning handle to it,
its owner count is 1, and afterwards the entry of `k` exists, observes the new
object and resolves to it. -/
theorem C2_cache_miss (s : World) (k : Int)
    (hmiss : cacheFind s.cache k = none ∨
      ∃ w, cacheFind s.cache k = some w ∧ w.expired s.heap = true) :
    (fastLoadWidget s k true).2 = Outcome.returned (SharedPtr.own s.heap.length) ∧
      (fastLoadWidget s k true).1.heap = s.heap ++ [⟨Widget.mk, 1⟩] ∧
      (fastLoadWidget s k true).1.heap.length = s.heap.length + 1 ∧
      useCount (fastLoadWidget s k true).1.heap s.heap.length = 1 ∧
      cacheFind (fastLoadWidget s k true).1.cache k = some (WeakPtr.obs s.heap.length) ∧
      ((WeakPtr.obs s.heap.length).lock (fastLoadWidget s k true).1.heap).2
        = SharedPtr.own s.heap.length := by
  have hm : ∀ w, cacheFind s.cache k = some w → w.use_count s.heap = 0 := by
    intro w hw
    rcases hmiss with hnone | ⟨w1, hw1, hexp⟩
    · rw [hnone] at hw; cases hw
    · rw [hw1] at hw; cases hw
      simpa [WeakPtr.expired] using hexp
  rw [fastLoadWidget_miss s k true hm, if_pos rfl]
  have hcount : useCount (s.heap ++ [(⟨Widget.mk, 1⟩ : Obj Widget)]) s.heap.length = 1 :=
    useCount_append_new _ _
  refine ⟨rfl, rfl, by simp, hcount, ?_, ?_⟩
  · apply cacheFind_cacheSet_same
    rw [cacheFind_subscript_same]
    rfl
  · obtain ⟨o, _, _, hlock⟩ := lock_live _ _ (by rw [hcount]; exact Nat.one_pos)
    rw [hlock]

/-- C2 at a concrete state: the only Widget is dead and key 7 still observes it. -/
theorem C2_cache_miss_witness :
    (fastLoadWidget ⟨[⟨Widget.mk, 0⟩], [(7, WeakPtr.obs 0)]⟩ 7 true).2
        = Outcome.returned (SharedPtr.own 1) ∧
      (fastLoadWidget ⟨[⟨Widget.mk, 0⟩], [(7, WeakPtr.obs 0)]⟩ 7 true).1.heap
        = [⟨Widget.mk, 0⟩, ⟨Widget.mk, 1⟩] :=
  have h := C2_cache_miss ⟨[⟨Widget.mk, 0⟩], [(7, WeakPtr.obs 0)]⟩ 7
    (Or.inr ⟨WeakPtr.obs 0, by decide, by decide⟩)
  ⟨h.1, h.2.1⟩

/-- C3 (reload after expiry). If `fastLoadWidget k` returned a handle to `v1` and
every owning handle to `v1` is then given up (its owner count is 0), the next
`fastLoadWidget k` loads again: it constructs a new Widget, returns a handle to
that new object, which is not `v1`, and the entry of `k` now observes it. -/
theorem C3_reload_after_expiry (s : World) (k : Int) (allocOk : Bool) (v1 : ObjId)
    (hfirst : (fastLoadWidget s k allocOk).2 = Outcome.returned (SharedPtr.own v1)) :
    useCount ((fastLoadWidget s k allocOk).1.dropAll v1).heap v1 = 0 ∧
      (fastLoadWidget ((fastLoadWidget s k allocOk).1.dropAll v1) k true).2
        = Outcome.returned
            (SharedPtr.own ((fastLoadWidget s k allocOk).1.dropAll v1).heap.length) ∧
      ((fastLoadWidget s k allocOk).1.dropAll v1).heap.length ≠ v1 ∧
      (fastLoadWidget ((fastLoadWidget s k allocOk).1.dropAll v1) k true).1.heap
        = ((fastLoadWidget s k allocOk).1.dropAll v1).heap ++ [⟨Widget.mk, 1⟩] ∧
      cacheFind (fastLoadWidget ((fastLoadWidget s k allocOk).1.dropAll v1) k true).1.cache k
        = some (WeakPtr.obs ((fastLoadWidget s k allocOk).1.dropAll v1).heap.length) := by
  obtain ⟨hentry, hlive⟩ := fastLoadWidget_returned s k allocOk v1 hfirst
  generalize (fastLoadWidget s k allocOk).1 = s1 at hentry hlive ⊢
  have hdead : useCount (s1.dropAll v1).heap v1 = 0 := by
    simp [World.dropAll, useCount_dropOwners]
  have hlen : (s1.dropAll v1).heap.length = s1.heap.length := by
    simp [World.dropAll, length_dropOwners]
  have hm : ∀ w, cacheFind (s1.dropAll v1).cache k = some w →
      w.use_count (s1.dropAll v1).heap = 0 := by
    intro w hw
    have hw1 : cacheFind s1.cache k = some w := hw
    rw [hentry] at hw1
    cases hw1
    exact hdead
  have hne : (s1.dropAll v1).heap.length ≠ v1 := by
    have hlt := useCount_pos_lt _ _ hlive
    rw [hlen]
    exact Nat.ne_of_gt hlt
  rw [fastLoadWidget_miss _ k true hm, if_pos rfl]
  refine ⟨hdead, rfl, hne, rfl, ?_⟩
  apply cacheFind_cacheSet_same
  rw [cacheFind_subscript_same]
  rfl

/-- C3 from program start: load key 1, give the handle up, load key 1 again. -/
theorem C3_reload_after_expiry_witness :
    (fastLoadWidget World.init 1 true).2 = Outcome.returned (SharedPtr.own 0) ∧
      (fastLoadWidget ((fastLoadWidget World.init 1 true).1.dropAll 0) 1 true).2
        = Outcome.returned (SharedPtr.own 1) :=
  ⟨by decide, (C3_reload_after_expiry World.init 1 true 0 (by decide)).2.1⟩

/-- C5, as the claim states it, fails at program start: a failed load for key 1
on the empty cache raises, and key 1, which had no entry, has one afterwards, so
the cache is not what it was. -/
theorem C5_failure_atomicity_counterexample :
    (fastLoadWidget World.init 1 false).2 = Outcome.raised ∧
      cacheFind World.init.cache 1 = none ∧
      cacheFind (fastLoadWidget World.init 1 false).1.cache 1 = some WeakPtr.empty ∧
      (fastLoadWidget World.init 1 false).1.cache ≠ World.init.cache := by
  decide

/-- C5, amended. When the load step of `fastLoadWidget k` fails (no live entry
for `k`, and the allocation throws), the call raises; no object is created or
changed; every key other than `k` has the entry it had; every entry that
existed is still there with the same weak handle; when `k` had an entry the
whole state is exactly as before; and when `k` had none, the cache has gained
one entry for `k`, holding an empty weak handle. -/
theorem C5_failed_load_amended (s : World) (k : Int)
    (hmiss : cacheFind s.cache k = none ∨
      ∃ w, cacheFind s.cache k = some w ∧ w.expired s.heap = true) :
    (fastLoadWidget s k false).2 = Outcome.raised ∧
      (fastLoadWidget s k false).1.heap = s.heap ∧
      (∀ j, j ≠ k → cacheFind (fastLoadWidget s k false).1.cache j = cacheFind s.cache j) ∧
      (∀ j w, cacheFind s.cache j = some w →
        cacheFind (fastLoadWidget s k false).1.cache j = some w) ∧
      ((cacheFind s.cache k).isSome = true → (fastLoadWidget s k false).1 = s) ∧
      (cacheFind s.cache k = none →
        (fastLoadWidget s k false).1.cache = s.cache ++ [(k, WeakPtr.empty)]) := by
  have hm : ∀ w, cacheFind s.cache k = some w → w.use_count s.heap = 0 := by
    intro w hw
    rcases hmiss with hnone | ⟨w1, hw1, hexp⟩
    · rw [hnone] at hw; cases hw
    · rw [hw1] at hw; cases hw
      simpa [WeakPtr.expired] using hexp
  rw [fastLoadWidget_miss s k false hm]
  simp only [Bool.false_eq_true, if_false]
  refine ⟨trivial, trivial, ?_, ?_, ?_, ?_⟩
  · intro j hj
    exact cacheFind_subscript_other _ _ _ hj
  · intro j w hw
    by_cases hj : j = k
    · subst hj
      simp [cacheSubscript, hw]
    · rw [cacheFind_subscript_other _ _ _ hj, hw]
  · intro hsome
    cases hf : cacheFind s.cache k with
    | none => simp [hf] at hsome
    | some w => simp [cacheSubscript, hf]
  · intro hnone
    simp [cacheSubscript, hnone]

/-- C5 amended, at a state where key 7 has an expired entry: nothing changes. -/
theorem C5_failed_load_amended_witness :
    (fastLoadWidget ⟨[⟨Widget.mk, 0⟩], [(7, WeakPtr.obs 0)]⟩ 7 false).2 = Outcome.raised ∧
      (fastLoadWidget ⟨[⟨Widget.mk, 0⟩], [(7, WeakPtr.obs 0)]⟩ 7 false).1
        = ⟨[⟨Widget.mk, 0⟩], [(7, WeakPtr.obs 0)]⟩ :=
  have h := C5_failed_load_amended ⟨[⟨Widget.mk, 0⟩], [(7, WeakPtr.obs 0)]⟩ 7
    (Or.inr ⟨WeakPtr.obs 0, by decide, by decide⟩)
  ⟨h.1, h.2.2.2.2.1 (by decide)⟩

/-- C6 (clean retry). After a `fastLoadWidget k` whose load failed, a following
`fastLoadWidget k` whose load succeeds ends exactly as a first-time miss on the
original state would: same returned handle and same resulting state; the handle
is to a newly constructed Widget with owner count 1, and the entry of `k`
observes it and resolves to it. -/
theorem C6_clean_retry (s : World) (k : Int)
    (hfail : (fastLoadWidget s k false).2 = Outcome.raised) :
    fastLoadWidget (fastLoadWidget s k false).1 k true = fastLoadWidget s k true ∧
      (fastLoadWidget (fastLoadWidget s k false).1 k true).2
        = Outcome.returned (SharedPtr.own s.heap.length) ∧
      (fastLoadWidget (fastLoadWidget s k false).1 k true).1.heap
        = s.heap ++ [⟨Widget.mk, 1⟩] ∧
      cacheFind (fastLoadWidget (fastLoadWidget s k false).1 k true).1.cache k
        = some (WeakPtr.obs s.heap.length) ∧
      ((WeakPtr.obs s.heap.length).lock
          (fastLoadWidget (fastLoadWidget s k false).1 k true).1.heap).2
        = SharedPtr.own s.heap.length := by
  obtain ⟨_, hm⟩ := fastLoadWidget_raised s k false hfail
  have hfst : (fastLoadWidget s k false).1 = ⟨s.heap, (cacheSubscript s.cache k).1⟩ := by
    rw [fastLoadWidget_miss s k false hm]
    simp
  have hm1 : ∀ w, cacheFind (fastLoadWidget s k false).1.cache k = some w →
      w.use_count (fastLoadWidget s k false).1.heap = 0 := by
    rw [hfst]
    intro w hw
    simp only [cacheFind_subscript_same, Option.some.injEq] at hw
    subst hw
    unfold cacheSubscript
    cases hf : cacheFind s.cache k with
    | some w => simpa using hm w hf
    | none => simp [WeakPtr.use_count]
  have hsame : fastLoadWidget (fastLoadWidget s k false).1 k true = fastLoadWidget s k true := by
    rw [fastLoadWidget_miss _ k true hm1, fastLoadWidget_miss s k true hm, hfst]
    simp [cacheSubscript_idem]
  have hcount : useCount (s.heap ++ [(⟨Widget.mk, 1⟩ : Obj Widget)]) s.heap.length = 1 :=
    useCount_append_new _ _
  rw [hsame, fastLoadWidget_miss s k true hm, if_pos rfl]
  refine ⟨rfl, rfl, rfl, ?_, ?_⟩
  · apply cacheFind_cacheSet_same
    rw [cacheFind_subscript_same]
    rfl
  · obtain ⟨o, _, _, hlock⟩ := lock_live _ _ (by rw [hcount]; exact Nat.one_pos)
    rw [hlock]

/-- C6 from program start: a failed load of key 1, then a successful one. -/
theorem C6_clean_retry_witness :
    (fastLoadWidget World.init 1 false).2 = Outcome.raised ∧
      fastLoadWidget (fastLoadWidget World.init 1 false).1 1 true
        = (⟨[⟨Widget.mk, 1⟩], [(1, WeakPtr.obs 0)]⟩, Outcome.returned (SharedPtr.own 0)) :=
  ⟨by decide, (C6_clean_retry World.init 1 (by decide)).1.trans (by decide)⟩

/-- C7 (the cache is not an owner). Right after a `fastLoadWidget k` that loaded,
the owner count of the new object is exactly 1; once the caller gives that one
handle up the count is 0, so the object is destroyed and the weak handle is
expired and resolves to null, while the cache, which giving up a handle does
not touch, still has its entry for `k`.  More generally, after any sequential
run of calls and handle drops from program start, the owner count of every
object is the number of handles to it that callers hold: no cache entry ever
counts.  In `basic_usage` the owner count is 1 after `spw` is made and still 1
after `wpw` is constructed from it. -/
theorem C7_weak_handle_not_owner (s : World) (k : Int)
    (hmiss : cacheFind s.cache k = none ∨
      ∃ w, cacheFind s.cache k = some w ∧ w.expired s.heap = true) :
    (fastLoadWidget s k true).2 = Outcome.returned (SharedPtr.own s.heap.length) ∧
      (SharedPtr.own s.heap.length).use_count (fastLoadWidget s k true).1.heap = 1 ∧
      useCount (SharedPtr.reset (fastLoadWidget s k true).1.heap
        (SharedPtr.own s.heap.length)) s.heap.length = 0 ∧
      (WeakPtr.obs s.heap.length).expired (SharedPtr.reset (fastLoadWidget s k true).1.heap
        (SharedPtr.own s.heap.length)) = true ∧
      ((WeakPtr.obs s.heap.length).lock (SharedPtr.reset (fastLoadWidget s k true).1.heap
        (SharedPtr.own s.heap.length))).2 = SharedPtr.null ∧
      cacheFind (fastLoadWidget s k true).1.cache k = some (WeakPtr.obs s.heap.length) ∧
      (∀ ops id, useCount (Client.run ops).world.heap id = (Client.run ops).held.count id) ∧
      (∀ h0 : Heap Int, (basic_usage h0 true).map (fun t => (t.rcAfterMake, t.rcAfterWeak))
        = some (1, 1)) := by
  have hm : ∀ w, cacheFind s.cache k = some w → w.use_count s.heap = 0 := by
    intro w hw
    rcases hmiss with hnone | ⟨w1, hw1, hexp⟩
    · rw [hnone] at hw; cases hw
    · rw [hw1] at hw; cases hw
      simpa [WeakPtr.expired] using hexp
  rw [fastLoadWidget_miss s k true hm, if_pos rfl]
  have hcount : useCount (s.heap ++ [(⟨Widget.mk, 1⟩ : Obj Widget)]) s.heap.length = 1 :=
    useCount_append_new _ _
  have hzero : useCount (SharedPtr.reset (s.heap ++ [(⟨Widget.mk, 1⟩ : Obj Widget)])
      (SharedPtr.own s.heap.length)) s.heap.length = 0 := by
    rw [useCount_reset, if_pos rfl, hcount]
  refine ⟨rfl, hcount, hzero, ?_, ?_, ?_, ?_, ?_⟩
  · simp [WeakPtr.expired, WeakPtr.use_count, hzero]
  · rw [lock_expired _ _ (by simpa [WeakPtr.use_count] using hzero)]
  · apply cacheFind_cacheSet_same
    rw [cacheFind_subscript_same]
    rfl
  · intro ops
    exact Client.owned_foldl ops Client.init Client.owned_init
  · intro h0
    have hc : useCount (h0 ++ [(⟨42, 1⟩ : Obj Int)]) h0.length = 1 := useCount_append_new _ _
    simp [basic_usage, make_shared, WeakPtr.ofShared, SharedPtr.use_count, WeakPtr.use_count, hc]

/-- C7 from program start: load key 1 and give the handle up. -/
theorem C7_weak_handle_not_owner_witness :
    (SharedPtr.own 0).use_count (fastLoadWidget World.init 1 true).1.heap = 1 ∧
      useCount (SharedPtr.reset (fastLoadWidget World.init 1 true).1.heap (SharedPtr.own 0)) 0
        = 0 ∧
      cacheFind (fastLoadWidget World.init 1 true).1.cache 1 = some (WeakPtr.obs 0) :=
  have h := C7_weak_handle_not_owner World.init 1 (Or.inl (by decide))
  ⟨h.2.1, h.2.2.1, h.2.2.2.2.2.1⟩

theorem cacheFind_subscript_keeps (c : Cache) (k j : Int) (w : WeakPtr)
    (hw : cacheFind c j = some w) : cacheFind (cacheSubscript c k).1 j = some w := by
  by_cases hj : j = k
  · subst hj
    simp [cacheSubscript, hw]
  · rw [cacheFind_subscript_other _ _ _ hj, hw]

theorem Client.inv_init : Client.init.Inv := by
  refine ⟨rfl, ?_⟩
  intro i k hi
  simp [Client.init] at hi

theorem Client.inv_step (c : Client) (op : Op) (hinv : c.Inv) : (c.step op).Inv := by
  obtain ⟨hlen, hobs⟩ := hinv
  cases op with
  | drop n =>
    simp only [Client.step]
    cases hget : c.held[n]? with
    | none => exact ⟨hlen, hobs⟩
    | some id =>
      refine ⟨?_, ?_⟩
      · simp only [length_reset]
        exact hlen
      · intro i k hi hlive
        simp only [useCount_reset] at hlive
        apply hobs i k hi
        by_cases hid : id = i
        · subst hid
          simp only [if_true] at hlive
          omega
        · simpa [hid] using hlive
  | call k a =>
    rcases hit_or_miss c.world k with ⟨id, hentry, hlive⟩ | hmiss
    · obtain ⟨o, hget, hstrong, hcall⟩ := fastLoadWidget_hit c.world k id a hentry hlive
      simp only [Client.step, hcall, List.length_set, Nat.sub_self, List.replicate_zero,
        List.append_nil]
      refine ⟨by simpa using hlen, ?_⟩
      intro i k1 hi hl
      apply hobs i k1 hi
      simp only [useCount_set] at hl
      by_cases hid : id = i
      · subst hid; exact hlive
      · simpa [hid] using hl
    · have hcall := fastLoadWidget_miss c.world k a hmiss
      cases a with
      | false =>
        simp only [Bool.false_eq_true, if_false] at hcall
        simp only [Client.step, hcall]
        refine ⟨hlen, ?_⟩
        intro i k1 hi hl
        exact cacheFind_subscript_keeps _ _ _ _ (hobs i k1 hi hl)
      | true =>
        simp only [if_true] at hcall
        simp only [Client.step, hcall, List.length_append, List.length_singleton,
          Nat.add_sub_cancel_left, List.replicate_one]
        refine ⟨by simp [hlen], ?_⟩
        intro i k1 hi hl
        rcases Nat.lt_trichotomy i c.producedFor.length with hlt | heq | hgt
        · rw [List.getElem?_append_left hlt] at hi
          rw [useCount_append_lt _ _ _ (hlen ▸ hlt)] at hl
          have hold := hobs i k1 hi hl
          have hne : k1 ≠ k := by
            intro hk
            subst hk
            have := hmiss _ hold
            simp only [WeakPtr.use_count] at this
            omega
          rw [cacheFind_cacheSet_other _ _ _ _ hne, cacheFind_subscript_other _ _ _ hne]
          exact hold
        · subst heq
          simp only [List.getElem?_concat_length, Option.some.injEq] at hi
          subst hi
          rw [hlen]
          apply cacheFind_cacheSet_same
          rw [cacheFind_subscript_same]
          rfl
        · rw [List.getElem?_eq_none (by simp; omega)] at hi
          cases hi

theorem Client.inv_foldl (ops : List Op) (c : Client) (hinv : c.Inv) :
    (ops.foldl Client.step c).Inv := by
  induction ops generalizing c with
  | nil => exact hinv
  | cons op rest ih => exact ih _ (Client.inv_step c op hinv)

/-- C8 (uniqueness per key). After any sequential run of `fastLoadWidget` calls
(with loads that succeed or fail) and of handle drops, starting from program
start, every object has the key it was produced for on record, and two objects
produced for the same key that are both alive are the same object. -/
theorem C8_unique_live_value_per_key (ops : List Op) :
    (Client.run ops).producedFor.length = (Client.run ops).world.heap.length ∧
      ∀ i j k, (Client.run ops).producedFor[i]? = some k →
        (Client.run ops).producedFor[j]? = some k →
        0 < useCount (Client.run ops).world.heap i →
        0 < useCount (Client.run ops).world.heap j → i = j := by
  obtain ⟨hlen, hobs⟩ := Client.inv_foldl ops Client.init Client.inv_init
  refine ⟨hlen, ?_⟩
  intro i j k hi hj hli hlj
  have h1 := hobs i k hi hli
  have h2 := hobs j k hj hlj
  rw [h1] at h2
  simpa using h2

/-- C8 on a run that loads key 1 twice over (drop in between) and key 2 once: the
objects 0 and 1 were both produced for key 1, object 1 is the only live one. -/
theorem C8_unique_live_value_per_key_witness :
    (Client.run [Op.call 1 true, Op.drop 0, Op.call 1 true, Op.call 2 true]).producedFor
        = [1, 1, 2] ∧
      (Client.run [Op.call 1 true, Op.drop 0, Op.call 1 true, Op.call 2 true]).world.heap.map
        Obj.strong = [0, 1, 1] ∧
      (1 : Nat) = 1 :=
  ⟨by decide, by decide,
    (C8_unique_live_value_per_key
      [Op.call 1 true, Op.drop 0, Op.call 1 true, Op.call 2 true]).2 1 1 1
      (by decide) (by decide) (by decide) (by decide)⟩

/-- C9 (resolve or expired). `lock` returns null exactly when the owner count
seen through the weak handle is 0, which is exactly when `expired` holds, and
then the heap is not changed; when the observed object has a non-zero owner
count, `lock` returns an owning handle to that object and its owner count goes
up by one.  In `basic_usage`, after `spw` is reset the count is 0, `expired` is
true, both `lock` calls return null, and the line "wpw is expired" is printed
both times. -/
theorem C9_resolve_or_expired {α : Type} (h : Heap α) (w : WeakPtr) :
    ((w.lock h).2 = SharedPtr.null ↔ w.use_count h = 0) ∧
      (w.expired h = true ↔ (w.lock h).2 = SharedPtr.null) ∧
      (w.use_count h = 0 → (w.lock h).1 = h) ∧
      (∀ id, w = WeakPtr.obs id → 0 < useCount h id →
        (w.lock h).2 = SharedPtr.own id ∧
          useCount (w.lock h).1 id = useCount h id + 1) ∧
      (∀ h0 : Heap Int,
        (basic_usage h0 true).map
            (fun t => (t.rcAfterReset, t.expiredAfterReset, t.spw1, t.spw2, t.output))
          = some (0, true, SharedPtr.null, SharedPtr.null,
              ["wpw is expired\n", "wpw is expired\n"])) := by
  have hiff : (w.lock h).2 = SharedPtr.null ↔ w.use_count h = 0 := by
    constructor
    · intro hnull
      cases w with
      | empty => rfl
      | obs id =>
        by_contra hne
        obtain ⟨o, _, _, hlock⟩ := lock_live h id (Nat.pos_of_ne_zero hne)
        rw [hlock] at hnull
        cases hnull
    · intro hz
      rw [lock_expired h w hz]
  refine ⟨hiff, ?_, ?_, ?_, ?_⟩
  · rw [hiff]
    simp [WeakPtr.expired]
  · intro hz
    rw [lock_expired h w hz]
  · intro id hw hlive
    subst hw
    obtain ⟨o, hget, hstrong, hlock⟩ := lock_live h id hlive
    rw [hlock]
    refine ⟨rfl, ?_⟩
    simp only
    rw [useCount_set]
    simp [useCount_pos_lt _ _ hlive, hstrong]
  · intro h0
    have hz : useCount (SharedPtr.reset (h0 ++ [(⟨42, 1⟩ : Obj Int)])
        (SharedPtr.own h0.length)) h0.length = 0 := by
      have hc : useCount (h0 ++ [(⟨42, 1⟩ : Obj Int)]) h0.length = 1 :=
        useCount_append_new _ _
      rw [useCount_reset, if_pos rfl, hc]
    have hl := lock_expired (SharedPtr.reset (h0 ++ [(⟨42, 1⟩ : Obj Int)])
      (SharedPtr.own h0.length)) (WeakPtr.obs h0.length)
      (by simpa [WeakPtr.use_count] using hz)
    simp [basic_usage, make_shared, WeakPtr.ofShared, hl, WeakPtr.expired,
      WeakPtr.use_count, hz]

/-- C9 on a heap with one live and one dead object. -/
theorem C9_resolve_or_expired_witness :
    ((WeakPtr.obs 0).lock [(⟨Widget.mk, 2⟩ : Obj Widget), ⟨Widget.mk, 0⟩]).2
        = SharedPtr.own 0 ∧
      ((WeakPtr.obs 1).lock [(⟨Widget.mk, 2⟩ : Obj Widget), ⟨Widget.mk, 0⟩]).2
        = SharedPtr.null :=
  ⟨((C9_resolve_or_expired [(⟨Widget.mk, 2⟩ : Obj Widget), ⟨Widget.mk, 0⟩]
      (WeakPtr.obs 0)).2.2.2.1 0 rfl (by decide)).1,
    (C9_resolve_or_expired [(⟨Widget.mk, 2⟩ : Obj Widget), ⟨Widget.mk, 0⟩]
      (WeakPtr.obs 1)).1.mpr (by decide)⟩

end Item20

/-! ## The claims about the memoizing const members -/

namespace Item16

namespace thread_safe

theorem Widget.magicValue_valid (v : Int) :
    (⟨v, true⟩ : Widget).magicValue = ⟨⟨v, true⟩, v, 0, 0⟩ := rfl

theorem Widget.magicValue_invalid (v : Int) :
    (⟨v, false⟩ : Widget).magicValue = ⟨⟨84, true⟩, 84, 1, 1⟩ := rfl

theorem Widget.callLog_valid (v : Int) (n : Nat) :
    (⟨v, true⟩ : Widget).callLog n = List.replicate n (v, 0, 0) := by
  induction n with
  | zero => rfl
  | succ n ih =>
    simp only [Widget.callLog, Widget.magicValue_valid, ih, List.replicate_succ]

theorem widget_afterCalls_new (n : Nat) : Widget.new.afterCalls (n + 1) = ⟨84, true⟩ := by
  induction n with
  | zero => rfl
  | succ n ih =>
    rw [Widget.afterCalls, ih]
    rfl

theorem polynomial_afterCalls_new (D : Type) (n : Nat) :
    (Polynomial.new D).afterCalls (n + 1) = ⟨true, []⟩ := by
  induction n with
  | zero => rfl
  | succ n ih =>
    rw [Polynomial.afterCalls, ih]
    rfl

/-- C4 (at-most-once memoization, sequential). In any sequence of `n + 1` calls of
`magicValue` on a new Widget, the first call returns 84 and runs each expensive
computation once, every later call returns 84 and runs none; so over the whole
sequence each expensive computation runs exactly once and every value returned
is 84. -/
theorem C4_memoized_once (n : Nat) :
    Widget.new.callLog (n + 1) = (84, 1, 1) :: List.replicate n (84, 0, 0) ∧
      ((Widget.new.callLog (n + 1)).map (fun e => e.2.1)).sum = 1 ∧
      ((Widget.new.callLog (n + 1)).map (fun e => e.2.2)).sum = 1 ∧
      (∀ e ∈ Widget.new.callLog (n + 1), e.1 = 84) := by
  have hlog : Widget.new.callLog (n + 1) = (84, 1, 1) :: List.replicate n (84, 0, 0) := by
    simp only [Widget.callLog, Widget.new, Widget.magicValue_invalid, Widget.callLog_valid]
  rw [hlog]
  refine ⟨rfl, ?_, ?_, ?_⟩
  · simp
  · simp
  · intro e he
    simp only [List.mem_cons, List.mem_replicate] at he
    rcases he with rfl | ⟨_, rfl⟩ <;> rfl

/-- C10 (terminal Computed state). A new Widget has `cacheValid == false`; after
any `n + 1` calls of `magicValue` it has `cacheValid == true` and
`cachedValue == 84`; `magicValue`, the only operation of the class, always
leaves `cacheValid == true` and changes nothing on a state that already has
it.  Likewise `rootsAreValid` is false on a new `Polynomial`, true after any
`n + 1` calls of `roots`, always true after `roots`, and `roots` changes
nothing on a state that already has it. -/
theorem C10_terminal_computed (D : Type) (n : Nat) :
    Widget.new.cacheValid = false ∧
      (Widget.new.afterCalls (n + 1)).cacheValid = true ∧
      (Widget.new.afterCalls (n + 1)).cachedValue = 84 ∧
      (∀ w : Widget, w.magicValue.state.cacheValid = true) ∧
      (∀ v : Int, (⟨v, true⟩ : Widget).magicValue.state = ⟨v, true⟩) ∧
      (Polynomial.new D).rootsAreValid = false ∧
      ((Polynomial.new D).afterCalls (n + 1)).rootsAreValid = true ∧
      (∀ p : Polynomial D, p.roots.1.rootsAreValid = true) ∧
      (∀ r : List D, (⟨true, r⟩ : Polynomial D).roots.1 = ⟨true, r⟩) := by
  refine ⟨rfl, ?_, ?_, ?_, ?_, rfl, ?_, ?_, ?_⟩
  · rw [widget_afterCalls_new]
  · rw [widget_afterCalls_new]
  · intro w
    obtain ⟨v, b⟩ := w
    cases b <;> rfl
  · intro v
    rfl
  · rw [polynomial_afterCalls_new]
  · intro p
    obtain ⟨b, r⟩ := p
    cases b <;> rfl
  · intro r
    rfl

end thread_safe

end Item16

/-! ## Entries are never removed -/

namespace Item20

theorem cacheSet_keys (c : Cache) (k : Int) (w : WeakPtr) :
    (cacheSet c k w).map Prod.fst = c.map Prod.fst := by
  induction c with
  | nil => rfl
  | cons e rest ih =>
    obtain ⟨k1, w1⟩ := e
    by_cases hk : k1 = k
    · simp [cacheSet, hk, ih]
    · simp [cacheSet, hk, ih]

theorem cacheSet_length (c : Cache) (k : Int) (w : WeakPtr) :
    (cacheSet c k w).length = c.length := by
  have h := congrArg List.length (cacheSet_keys c k w)
  simpa using h

theorem cacheSubscript_keys_of_found (c : Cache) (k : Int)
    (hin : (cacheFind c k).isSome = true) : (cacheSubscript c k).1 = c := by
  unfold cacheSubscript
  cases hf : cacheFind c k with
  | none => simp [hf] at hin
  | some w => rfl

theorem cacheSubscript_length_le (c : Cache) (k : Int) :
    c.length ≤ (cacheSubscript c k).1.length := by
  unfold cacheSubscript
  cases cacheFind c k with
  | none => simp
  | some w => exact Nat.le_refl _

/-- The cache after a call, in each of the three ways a call can go. -/
theorem fastLoadWidget_cache (s : World) (k : Int) (allocOk : Bool) :
    (fastLoadWidget s k allocOk).1.cache = s.cache ∨
      (fastLoadWidget s k allocOk).1.cache = (cacheSubscript s.cache k).1 ∨
      (fastLoadWidget s k allocOk).1.cache
        = cacheSet (cacheSubscript s.cache k).1 k (WeakPtr.obs s.heap.length) := by
  rcases hit_or_miss s k with ⟨id, hentry, hlive⟩ | hmiss
  · obtain ⟨o, _, _, hcall⟩ := fastLoadWidget_hit s k id allocOk hentry hlive
    left
    rw [hcall]
  · rw [fastLoadWidget_miss s k allocOk hmiss]
    cases allocOk with
    | false => right; left; rfl
    | true => right; right; rfl

theorem fastLoadWidget_keeps_keys (s : World) (k : Int) (allocOk : Bool) (j : Int)
    (hin : (cacheFind s.cache j).isSome = true) :
    (cacheFind (fastLoadWidget s k allocOk).1.cache j).isSome = true := by
  cases hf : cacheFind s.cache j with
  | none => simp [hf] at hin
  | some w =>
    have hsub := cacheFind_subscript_keeps s.cache k j w hf
    rcases fastLoadWidget_cache s k allocOk with h | h | h
    · rw [h, hf]; rfl
    · rw [h, hsub]; rfl
    · rw [h]
      by_cases hjk : j = k
      · subst hjk
        rw [cacheFind_cacheSet_same _ _ _ (by rw [hsub]; rfl)]
        rfl
      · rw [cacheFind_cacheSet_other _ _ _ _ hjk, hsub]
        rfl

theorem fastLoadWidget_length_le (s : World) (k : Int) (allocOk : Bool) :
    s.cache.length ≤ (fastLoadWidget s k allocOk).1.cache.length := by
  rcases fastLoadWidget_cache s k allocOk with h | h | h
  · rw [h]
  · rw [h]; exact cacheSubscript_length_le _ _
  · rw [h, cacheSet_length]; exact cacheSubscript_length_le _ _

theorem calls_length_le (cs : List (Int × Bool)) (s : World) :
    s.cache.length ≤ (s.calls cs).cache.length := by
  induction cs generalizing s with
  | nil => exact Nat.le_refl _
  | cons c rest ih =>
    exact Nat.le_trans (fastLoadWidget_length_le s c.1 c.2) (ih _)

/-- When line 57 does not throw (the key is present, or the node for it can be
allocated), the call is the one `fastLoadWidget` describes. -/
theorem fastLoadWidgetAlloc_past_insert (s : World) (k : Int) (nodeOk allocOk : Bool)
    (h : nodeOk = true ∨ (cacheFind s.cache k).isSome = true) :
    fastLoadWidgetAlloc s k nodeOk allocOk = fastLoadWidget s k allocOk := by
  unfold fastLoadWidgetAlloc fastLoadWidget cacheSubscriptAlloc cacheSubscript
  cases hf : cacheFind s.cache k with
  | some w => rfl
  | none =>
    rcases h with h | h
    · subst h; rfl
    · rw [hf] at h; cases h

/-- When the key is absent and the node for it cannot be allocated, the call
raises and nothing has changed. -/
theorem fastLoadWidgetAlloc_insert_throws (s : World) (k : Int) (allocOk : Bool)
    (hnone : cacheFind s.cache k = none) :
    fastLoadWidgetAlloc s k false allocOk = (s, Outcome.raised) := by
  simp [fastLoadWidgetAlloc, cacheSubscriptAlloc, hnone]

/-- A call either got past line 57, or it raised there and changed nothing. -/
theorem fastLoadWidgetAlloc_cases (s : World) (k : Int) (nodeOk allocOk : Bool) :
    ((nodeOk = true ∨ (cacheFind s.cache k).isSome = true) ∧
        fastLoadWidgetAlloc s k nodeOk allocOk = fastLoadWidget s k allocOk) ∨
      (nodeOk = false ∧ cacheFind s.cache k = none ∧
        fastLoadWidgetAlloc s k nodeOk allocOk = (s, Outcome.raised)) := by
  by_cases h : nodeOk = true ∨ (cacheFind s.cache k).isSome = true
  · exact Or.inl ⟨h, fastLoadWidgetAlloc_past_insert s k nodeOk allocOk h⟩
  · right
    have hn : nodeOk = false := by
      cases nodeOk with
      | false => rfl
      | true => exact absurd (Or.inl rfl) h
    have hf : cacheFind s.cache k = none := by
      cases hfind : cacheFind s.cache k with
      | none => rfl
      | some w => exact absurd (Or.inr (by rw [hfind]; rfl)) h
    subst hn
    exact ⟨rfl, hf, fastLoadWidgetAlloc_insert_throws s k allocOk hf⟩

theorem fastLoadWidget_has_key (s : World) (k : Int) (allocOk : Bool) :
    (cacheFind (fastLoadWidget s k allocOk).1.cache k).isSome = true := by
  have hsub : (cacheFind (cacheSubscript s.cache k).1 k).isSome = true := by
    rw [cacheFind_subscript_same]; rfl
  rcases fastLoadWidget_cache s k allocOk with h | h | h
  · rcases hit_or_miss s k with ⟨id, hentry, _⟩ | hmiss
    · rw [h, hentry]; rfl
    · rw [fastLoadWidget_miss s k allocOk hmiss]
      cases allocOk with
      | false => exact hsub
      | true =>
        simp only [if_true]
        rw [cacheFind_cacheSet_same _ _ _ hsub]
        rfl
  · rw [h]; exact hsub
  · rw [h, cacheFind_cacheSet_same _ _ _ hsub]
    rfl

theorem fastLoadWidgetAlloc_length_le (s : World) (k : Int) (nodeOk allocOk : Bool) :
    s.cache.length ≤ (fastLoadWidgetAlloc s k nodeOk allocOk).1.cache.length := by
  rcases fastLoadWidgetAlloc_cases s k nodeOk allocOk with ⟨_, h⟩ | ⟨_, _, h⟩
  · rw [h]; exact fastLoadWidget_length_le s k allocOk
  · rw [h]

theorem callsAlloc_length_le (cs : List (Int × Bool × Bool)) (s : World) :
    s.cache.length ≤ (s.callsAlloc cs).cache.length := by
  induction cs generalizing s with
  | nil => exact Nat.le_refl _
  | cons c rest ih =>
    exact Nat.le_trans (fastLoadWidgetAlloc_length_le s c.1 c.2.1 c.2.2) (ih _)

/-- C11 (lookups never remove entries). Whatever the state, the key and the
outcome of either allocation: every key that had an entry before
`fastLoadWidget k` has one afterwards; `k` has one after every call that
returns, and after every call that got past `cache[widgetId]` on line 57, so
also when its load step fails; a call that raises on line 57, because the
node for an absent `k` cannot be allocated, changes nothing; when `k` already
had an entry the list of keys is unchanged, entry for entry, so an expired
entry is overwritten where it stands (after a successful load it observes the
new object); and the number of entries does not go down in one call nor over
any sequence of calls from any state. -/
theorem C11_lookups_never_remove (s : World) (k : Int) (nodeOk allocOk : Bool) :
    (∀ j, (cacheFind s.cache j).isSome = true →
        (cacheFind (fastLoadWidgetAlloc s k nodeOk allocOk).1.cache j).isSome = true) ∧
      (∀ p, (fastLoadWidgetAlloc s k nodeOk allocOk).2 = Outcome.returned p →
        (cacheFind (fastLoadWidgetAlloc s k nodeOk allocOk).1.cache k).isSome = true) ∧
      ((nodeOk = true ∨ (cacheFind s.cache k).isSome = true) →
        (cacheFind (fastLoadWidgetAlloc s k nodeOk allocOk).1.cache k).isSome = true) ∧
      (nodeOk = false → cacheFind s.cache k = none →
        fastLoadWidgetAlloc s k nodeOk allocOk = (s, Outcome.raised)) ∧
      ((cacheFind s.cache k).isSome = true →
        (fastLoadWidgetAlloc s k nodeOk allocOk).1.cache.map Prod.fst
          = s.cache.map Prod.fst) ∧
      (∀ w, cacheFind s.cache k = some w → w.expired s.heap = true → allocOk = true →
        cacheFind (fastLoadWidgetAlloc s k nodeOk allocOk).1.cache k
          = some (WeakPtr.obs s.heap.length)) ∧
      s.cache.length ≤ (fastLoadWidgetAlloc s k nodeOk allocOk).1.cache.length ∧
      (∀ cs : List (Int × Bool × Bool), s.cache.length ≤ (s.callsAlloc cs).cache.length) := by
  have hpast : (nodeOk = true ∨ (cacheFind s.cache k).isSome = true) →
      (cacheFind (fastLoadWidgetAlloc s k nodeOk allocOk).1.cache k).isSome = true := by
    intro h
    rw [fastLoadWidgetAlloc_past_insert s k nodeOk allocOk h]
    exact fastLoadWidget_has_key s k allocOk
  refine ⟨?_, ?_, hpast, ?_, ?_, ?_, fastLoadWidgetAlloc_length_le s k nodeOk allocOk,
    fun cs => callsAlloc_length_le cs s⟩
  · intro j hj
    rcases fastLoadWidgetAlloc_cases s k nodeOk allocOk with ⟨_, h⟩ | ⟨_, _, h⟩
    · rw [h]; exact fastLoadWidget_keeps_keys s k allocOk j hj
    · rw [h]; exact hj
  · intro p hret
    rcases fastLoadWidgetAlloc_cases s k nodeOk allocOk with ⟨hp, _⟩ | ⟨_, _, h⟩
    · exact hpast hp
    · rw [h] at hret
      cases hret
  · intro hn hnone
    subst hn
    exact fastLoadWidgetAlloc_insert_throws s k allocOk hnone
  · intro hin
    rw [fastLoadWidgetAlloc_past_insert s k nodeOk allocOk (Or.inr hin)]
    rcases fastLoadWidget_cache s k allocOk with h | h | h
    · rw [h]
    · rw [h, cacheSubscript_keys_of_found _ _ hin]
    · rw [h, cacheSet_keys, cacheSubscript_keys_of_found _ _ hin]
  · intro w hw hexp ha
    subst ha
    rw [fastLoadWidgetAlloc_past_insert s k nodeOk true (Or.inr (by rw [hw]; rfl))]
    have hm : ∀ w1, cacheFind s.cache k = some w1 → w1.use_count s.heap = 0 := by
      intro w1 hw1
      rw [hw] at hw1
      cases hw1
      simpa [WeakPtr.expired] using hexp
    rw [fastLoadWidget_miss s k true hm, if_pos rfl]
    apply cacheFind_cacheSet_same
    rw [cacheFind_subscript_same]
    rfl

/-- C11 on a cache whose only entry, for key 7, is expired: a successful load of
key 7 overwrites it where it stands, also when no map node could be allocated;
and on the empty cache a call whose load step fails leaves an entry for its
key. -/
theorem C11_lookups_never_remove_witness :
    cacheFind (fastLoadWidgetAlloc ⟨[⟨Widget.mk, 0⟩], [(7, WeakPtr.obs 0)]⟩ 7 false true).1.cache
        7 = some (WeakPtr.obs 1) ∧
      (fastLoadWidgetAlloc ⟨[⟨Widget.mk, 0⟩], [(7, WeakPtr.obs 0)]⟩ 7 false true).1.cache.map
        Prod.fst = [7] ∧
      (cacheFind (fastLoadWidgetAlloc World.init 1 true false).1.cache 1).isSome = true ∧
      fastLoadWidgetAlloc World.init 1 false true = (World.init, Outcome.raised) :=
  have h := C11_lookups_never_remove ⟨[⟨Widget.mk, 0⟩], [(7, WeakPtr.obs 0)]⟩ 7 false true
  ⟨h.2.2.2.2.2.1 (WeakPtr.obs 0) (by decide) (by decide) rfl, h.2.2.2.2.1 (by decide),
    (C11_lookups_never_remove World.init 1 true false).2.2.1 (Or.inl rfl),
    (C11_lookups_never_remove World.init 1 false true).2.2.2.1 rfl (by decide)⟩

end Item20

/-! ## Concurrent callers of the mutex-protected `Widget` -/

namespace Item16

namespace thread_safe

theorem threadStep_ok (i : Nat) (sh : Shared) (pc : Pc) (r : Shared × Pc)
    (hstep : threadStep Variant.widget i sh pc = some r) (hok : pc.Ok sh i)
    (hfree : sh.m = none → sh.Fresh ∨ sh.Computed) : r.2.Ok r.1 i := by
  cases pc <;> simp only [threadStep] at hstep <;> (try split at hstep) <;> cases hstep <;>
    simp_all [Pc.Ok, Shared.Fresh, Shared.Computed, Variant.leave,
      expensiveComputation1, expensiveComputation2]

theorem threadStep_frame (i j : Nat) (sh : Shared) (pc pcj : Pc) (r : Shared × Pc)
    (hstep : threadStep Variant.widget i sh pc = some r) (hok : pc.Ok sh i)
    (hij : j ≠ i) (hokj : pcj.Ok sh j) : pcj.Ok r.1 j := by
  cases pc <;> simp only [threadStep] at hstep <;> (try split at hstep) <;> cases hstep <;>
    cases pcj <;>
    simp_all [Pc.Ok, Shared.Fresh, Shared.Computed, Variant.leave,
      expensiveComputation1, expensiveComputation2]

theorem threadStep_free (i : Nat) (sh : Shared) (pc : Pc) (r : Shared × Pc)
    (hstep : threadStep Variant.widget i sh pc = some r) (hok : pc.Ok sh i)
    (hfree : r.1.m = none) : r.1.Fresh ∨ r.1.Computed := by
  cases pc <;> simp only [threadStep] at hstep <;> (try split at hstep) <;> cases hstep <;>
    simp_all [Pc.Ok, Shared.Fresh, Shared.Computed, Variant.leave,
      expensiveComputation1, expensiveComputation2]

theorem threadStep_holder (i t : Nat) (sh : Shared) (pc : Pc) (r : Shared × Pc)
    (hstep : threadStep Variant.widget i sh pc = some r) (hok : pc.Ok sh i)
    (hheld : r.1.m = some t) : t = i ∧ r.2.holdsLock = true := by
  cases pc <;> simp only [threadStep] at hstep <;> (try split at hstep) <;> cases hstep <;>
    simp_all [Pc.Ok, Shared.Fresh, Shared.Computed, Variant.leave, Pc.holdsLock,
      expensiveComputation1, expensiveComputation2]

theorem threadStep_rank (c : Variant) (i : Nat) (sh : Shared) (pc : Pc) (r : Shared × Pc)
    (hstep : threadStep c i sh pc = some r) : pc.rank < r.2.rank := by
  cases pc <;> cases c <;> simp only [threadStep] at hstep <;> (try split at hstep) <;>
    cases hstep <;> simp [Pc.rank, Variant.leave]

theorem threadStep_holdsLock (i : Nat) (sh : Shared) (pc : Pc)
    (hheld : pc.holdsLock = true) : (threadStep Variant.widget i sh pc).isSome = true := by
  cases pc <;> simp_all [threadStep, Pc.holdsLock]

theorem System.mutex_inv_init (n : Nat) : (System.init Variant.widget n).Inv := by
  refine ⟨?_, ?_, ?_⟩
  · intro i pc hi
    have hmem := List.getElem?_mem hi
    simp only [System.init, List.mem_replicate] at hmem
    rw [hmem.2]
    trivial
  · intro _
    left
    exact ⟨rfl, rfl, rfl, rfl⟩
  · intro t ht
    cases ht

theorem System.mutex_inv_step (s : System) (tid : Nat) (hinv : s.Inv) :
    (System.step Variant.widget s tid).Inv := by
  obtain ⟨hok, hfree, hheld⟩ := hinv
  unfold System.step
  cases hget : s.threads[tid]? with
  | none => exact ⟨hok, hfree, hheld⟩
  | some pc =>
    simp only
    cases hstep : threadStep Variant.widget tid s.shared pc with
    | none => exact ⟨hok, hfree, hheld⟩
    | some r =>
      have hlt : tid < s.threads.length := by
        by_contra hge
        rw [List.getElem?_eq_none (Nat.le_of_not_lt hge)] at hget
        cases hget
      have hpc := hok tid pc hget
      refine ⟨?_, ?_, ?_⟩
      · intro j pcj hj
        simp only [List.getElem?_set] at hj
        by_cases hjt : tid = j
        · subst hjt
          simp only [hlt, if_true, Option.some.injEq] at hj
          subst hj
          exact threadStep_ok tid _ pc r hstep hpc hfree
        · simp only [hjt, if_false] at hj
          exact threadStep_frame tid j _ pc pcj r hstep hpc (Ne.symm hjt) (hok j pcj hj)
      · intro hm
        exact threadStep_free tid _ pc r hstep hpc hm
      · intro t ht
        obtain ⟨rfl, hl⟩ := threadStep_holder tid t _ pc r hstep hpc ht
        exact ⟨r.2, by simp [hlt], hl⟩

theorem System.inv_run (sched : List Nat) (s : System) (hinv : s.Inv) :
    (System.run Variant.widget s sched).Inv := by
  induction sched generalizing s with
  | nil => exact hinv
  | cons tid rest ih => exact ih _ (System.mutex_inv_step s tid hinv)

theorem System.inv_after (n : Nat) (sched : List Nat) :
    (System.after Variant.widget n sched).Inv :=
  System.inv_run sched _ (System.mutex_inv_init n)

theorem System.length_step (c : Variant) (s : System) (tid : Nat) :
    (System.step c s tid).threads.length = s.threads.length := by
  unfold System.step
  cases s.threads[tid]? with
  | none => rfl
  | some pc =>
    simp only
    cases threadStep c tid s.shared pc with
    | none => rfl
    | some r => simp

theorem System.length_run (c : Variant) (sched : List Nat) (s : System) :
    (System.run c s sched).threads.length = s.threads.length := by
  induction sched generalizing s with
  | nil => rfl
  | cons tid rest ih =>
    exact (ih (System.step c s tid)).trans (System.length_step c s tid)

theorem System.length_after (c : Variant) (n : Nat) (sched : List Nat) :
    (System.after c n sched).threads.length = n := by
  unfold System.after
  rw [System.length_run]
  simp [System.init]

theorem rank_le (pc : Pc) : pc.rank ≤ 8 := by
  cases pc <;> simp [Pc.rank]

theorem rank_eq_eight (pc : Pc) (h : pc.rank = 8) : ∃ v, pc = Pc.done v := by
  cases pc <;> simp [Pc.rank] at h
  exact ⟨_, rfl⟩

theorem sum_rank_le (l : List Pc) : (l.map Pc.rank).sum ≤ 8 * l.length := by
  induction l with
  | nil => simp
  | cons pc rest ih =>
    have := rank_le pc
    simp only [List.map_cons, List.sum_cons, List.length_cons]
    omega

theorem sum_rank_set (l : List Pc) (i : Nat) (pc pc1 : Pc) (hget : l[i]? = some pc)
    (hlt : pc.rank < pc1.rank) : (l.map Pc.rank).sum < ((l.set i pc1).map Pc.rank).sum := by
  induction l generalizing i with
  | nil => simp at hget
  | cons x xs ih =>
    cases i with
    | zero =>
      simp only [List.getElem?_cons_zero, Option.some.injEq] at hget
      subst hget
      simp only [List.set_cons_zero, List.map_cons, List.sum_cons]
      omega
    | succ i =>
      simp only [List.getElem?_cons_succ] at hget
      have := ih i hget
      simp only [List.set_cons_succ, List.map_cons, List.sum_cons]
      omega

theorem System.progress_le (c : Variant) (n : Nat) (sched : List Nat) :
    (System.after c n sched).progress ≤ 8 * n := by
  have h := sum_rank_le (System.after c n sched).threads
  rw [System.length_after] at h
  exact h

theorem System.progress_step_of_some (c : Variant) (s : System) (tid : Nat) (pc : Pc)
    (r : Shared × Pc) (hget : s.threads[tid]? = some pc)
    (hstep : threadStep c tid s.shared pc = some r) :
    s.progress < (System.step c s tid).progress := by
  simp only [System.step, hget, hstep, System.progress]
  exact sum_rank_set _ _ pc r.2 hget (threadStep_rank c tid _ pc r hstep)

theorem System.progress_step (c : Variant) (s : System) (tid : Nat) :
    System.step c s tid = s ∨ s.progress < (System.step c s tid).progress := by
  cases hget : s.threads[tid]? with
  | none => left; simp [System.step, hget]
  | some pc =>
    cases hstep : threadStep c tid s.shared pc with
    | none => left; simp [System.step, hget, hstep]
    | some r => right; exact System.progress_step_of_some c s tid pc r hget hstep

theorem System.exists_move (s : System) (hinv : s.Inv) (hnot : s.allDone = false) :
    ∃ tid, tid < s.threads.length ∧
      s.progress < (System.step Variant.widget s tid).progress := by
  obtain ⟨hok, hfree, hheld⟩ := hinv
  cases hm : s.shared.m with
  | some t =>
    obtain ⟨pc, hget, hl⟩ := hheld t hm
    have hsome := threadStep_holdsLock t s.shared pc hl
    cases hstep : threadStep Variant.widget t s.shared pc with
    | none => rw [hstep] at hsome; cases hsome
    | some r =>
      refine ⟨t, ?_, System.progress_step_of_some _ s t pc r hget hstep⟩
      by_contra hge
      rw [List.getElem?_eq_none (Nat.le_of_not_lt hge)] at hget
      cases hget
  | none =>
    have hex : ∃ pc ∈ s.threads, pc.rank ≠ 8 := by
      by_contra hall
      have : s.allDone = true := by
        simp only [System.allDone, List.all_eq_true, beq_iff_eq]
        intro pc hpc
        by_contra hne
        exact hall ⟨pc, hpc, hne⟩
      rw [this] at hnot
      cases hnot
    obtain ⟨pc, hmem, hrank⟩ := hex
    obtain ⟨i, hget⟩ := List.mem_iff_getElem?.mp hmem
    have hpc := hok i pc hget
    have hlock : pc = Pc.lock := by
      cases pc <;> simp_all [Pc.Ok, Pc.rank]
    subst hlock
    have hstep : threadStep Variant.widget i s.shared Pc.lock
        = some ({ s.shared with m := some i }, Pc.test) := by
      simp [threadStep, hm]
    refine ⟨i, ?_, System.progress_step_of_some _ s i Pc.lock _ hget hstep⟩
    by_contra hge
    rw [List.getElem?_eq_none (Nat.le_of_not_lt hge)] at hget
    cases hget

theorem System.ran_le_one (s : System) (hinv : s.Inv) :
    s.shared.ran1 ≤ 1 ∧ s.shared.ran2 ≤ 1 := by
  obtain ⟨hok, hfree, hheld⟩ := hinv
  cases hm : s.shared.m with
  | none =>
    rcases hfree hm with h | h
    · simp [h.2.2.1, h.2.2.2]
    · simp [h.2.2.1, h.2.2.2]
  | some t =>
    obtain ⟨pc, hget, hl⟩ := hheld t hm
    have hpc := hok t pc hget
    cases pc <;> simp_all [Pc.Ok, Pc.holdsLock, Shared.Fresh, Shared.Computed]
    rcases hpc with h | h <;> simp [h]

theorem System.done_value (s : System) (hinv : s.Inv) (i : Nat) (v : Int)
    (hget : s.threads[i]? = some (Pc.done v)) : v = 84 ∧ s.shared.Computed :=
  hinv.1 i _ hget

theorem System.allDone_threads (s : System) (hinv : s.Inv) (hall : s.allDone = true) :
    s.threads = List.replicate s.threads.length (Pc.done 84) := by
  rw [List.eq_replicate_iff]
  refine ⟨rfl, ?_⟩
  intro pc hmem
  simp only [System.allDone, List.all_eq_true, beq_iff_eq] at hall
  obtain ⟨v, rfl⟩ := rank_eq_eight pc (hall pc hmem)
  obtain ⟨i, hget⟩ := List.mem_iff_getElem?.mp hmem
  rw [(System.done_value s hinv i v hget).1]

/-- A thread running alone goes through `magicValue` as the sequential
definition says: same final members, same returned value, same computations. -/
theorem System.single_thread_agrees :
    System.after Variant.widget 1 (List.replicate 9 0)
      = ⟨⟨Widget.new.magicValue.state, none, Widget.new.magicValue.ran1,
          Widget.new.magicValue.ran2⟩, [Pc.done Widget.new.magicValue.value]⟩ := by
  decide

set_option maxRecDepth 8000 in
/-- An interleaving of eight threads in which every call returns: thread 0 makes
its whole call, then the others make theirs one after the other. -/
theorem System.all_return :
    (System.after Variant.widget 8 (System.serial 8)).allDone = true := by
  decide

/-- C13 (at most once under concurrency). Eight threads call
`Widget::magicValue` on one new object.  After any interleaving: each expensive
computation has run at most once; every call that has returned returned 84,
and by then each computation has run exactly once; when all eight calls have
returned, all returned 84 and each computation ran exactly once.  The calls do
return: as long as one has not, some thread can move, every move raises the
progress measure, which is at most 64; and an interleaving in which all eight
return exists. -/
theorem C13_at_most_once_concurrent (sched : List Nat) :
    (System.after Variant.widget 8 sched).shared.ran1 ≤ 1 ∧
      (System.after Variant.widget 8 sched).shared.ran2 ≤ 1 ∧
      (∀ (i : Nat) (v : Int),
        (System.after Variant.widget 8 sched).threads[i]? = some (Pc.done v) →
        v = 84 ∧ (System.after Variant.widget 8 sched).shared.ran1 = 1 ∧
          (System.after Variant.widget 8 sched).shared.ran2 = 1) ∧
      ((System.after Variant.widget 8 sched).allDone = true →
        (System.after Variant.widget 8 sched).threads = List.replicate 8 (Pc.done 84) ∧
          (System.after Variant.widget 8 sched).shared.ran1 = 1 ∧
          (System.after Variant.widget 8 sched).shared.ran2 = 1) ∧
      ((System.after Variant.widget 8 sched).allDone = false →
        ∃ tid, tid < 8 ∧ (System.after Variant.widget 8 sched).progress
          < (System.step Variant.widget (System.after Variant.widget 8 sched) tid).progress) ∧
      (∀ tid,
        System.step Variant.widget (System.after Variant.widget 8 sched) tid
            = System.after Variant.widget 8 sched ∨
          (System.after Variant.widget 8 sched).progress
            < (System.step Variant.widget (System.after Variant.widget 8 sched) tid).progress) ∧
      (System.after Variant.widget 8 sched).progress ≤ 64 ∧
      (System.after Variant.widget 8 (System.serial 8)).allDone = true := by
  have hinv := System.inv_after 8 sched
  have hlen := System.length_after Variant.widget 8 sched
  have hran := System.ran_le_one _ hinv
  refine ⟨hran.1, hran.2, ?_, ?_, ?_, ?_, ?_, ?_⟩
  · intro i v hget
    have h := System.done_value _ hinv i v hget
    exact ⟨h.1, h.2.2.2.1, h.2.2.2.2⟩
  · intro hall
    have hthreads := System.allDone_threads _ hinv hall
    rw [hlen] at hthreads
    have hget : (System.after Variant.widget 8 sched).threads[0]? = some (Pc.done 84) := by
      rw [hthreads]
      rfl
    have h := System.done_value _ hinv 0 84 hget
    exact ⟨hthreads, h.2.2.2.1, h.2.2.2.2⟩
  · intro hnot
    obtain ⟨tid, hlt, hprog⟩ := System.exists_move _ hinv hnot
    exact ⟨tid, hlen ▸ hlt, hprog⟩
  · intro tid
    exact System.progress_step Variant.widget _ tid
  · exact System.progress_le Variant.widget 8 sched
  · exact System.all_return

/-- C13 on the interleaving in which thread 3 gets the mutex first and thread 0
runs while thread 3 computes. -/
theorem C13_at_most_once_concurrent_witness :
    (System.after Variant.widget 8 [3, 0, 3, 3, 0, 3, 3, 3, 3, 3, 0, 0, 0, 0]).threads[0]?
        = some (Pc.done 84) ∧
      (System.after Variant.widget 8 [3, 0, 3, 3, 0, 3, 3, 3, 3, 3, 0, 0, 0, 0]).shared.ran1
        = 1 :=
  ⟨by decide,
    ((C13_at_most_once_concurrent [3, 0, 3, 3, 0, 3, 3, 3, 3, 3, 0, 0, 0, 0]).2.2.1 0 84
      (by decide)).2.1⟩

/-- C14 (no intermediate state is observed). Any number of threads call
`Widget::magicValue` on one new object.  After any interleaving, a thread that
is about to read `cacheValid` holds the mutex and the members are either
(false, 0) or (true, 84); a thread that is about to read `cachedValue` holds the
mutex and the members are (true, 84); and a value about to be returned or
returned is 84.  The intermediate states exist, but only while their writer
holds the mutex: after the writer's first assignment the members are
(false, 84), and a second thread that is picked then does not move. -/
theorem C14_no_intermediate_state_observed (n : Nat) (sched : List Nat) (i : Nat) (pc : Pc)
    (hget : (System.after Variant.widget n sched).threads[i]? = some pc) :
    (pc = Pc.test →
        (System.after Variant.widget n sched).shared.m = some i ∧
          ((System.after Variant.widget n sched).shared.w = ⟨0, false⟩ ∨
            (System.after Variant.widget n sched).shared.w = ⟨84, true⟩)) ∧
      (pc = Pc.hit ∨ pc = Pc.ret →
        (System.after Variant.widget n sched).shared.m = some i ∧
          (System.after Variant.widget n sched).shared.w = ⟨84, true⟩) ∧
      (∀ v, pc = Pc.unlock v ∨ pc = Pc.done v → v = 84) ∧
      ((System.after Variant.widget 2 [0, 0, 0, 0, 0]).shared.w = ⟨84, false⟩ ∧
        (System.after Variant.widget 2 [0, 0, 0, 0, 0]).threads
          = [Pc.store2 42 42, Pc.lock] ∧
        System.step Variant.widget (System.after Variant.widget 2 [0, 0, 0, 0, 0]) 1
          = System.after Variant.widget 2 [0, 0, 0, 0, 0]) := by
  have hpc := (System.inv_after n sched).1 i pc hget
  generalize (System.after Variant.widget n sched).shared = sh at hpc
  obtain ⟨w, m, r1, r2⟩ := sh
  obtain ⟨value, valid⟩ := w
  refine ⟨?_, ?_, ?_, by decide, by decide, by decide⟩
  · rintro rfl
    simp only [Pc.Ok, Shared.Fresh, Shared.Computed] at hpc
    refine ⟨hpc.1, ?_⟩
    rcases hpc.2 with h | h
    · left; simp_all
    · right; simp_all
  · rintro (rfl | rfl) <;>
      · simp only [Pc.Ok, Shared.Computed] at hpc
        simp_all
  · rintro v (rfl | rfl)
    · exact hpc.2.1
    · exact hpc.1

/-- C14 on two threads: thread 1 has seen the published state and is about to
read `cachedValue`. -/
theorem C14_no_intermediate_state_observed_witness :
    (System.after Variant.widget 2 (List.replicate 9 0 ++ [1, 1])).threads[1]?
        = some Pc.hit ∧
      (System.after Variant.widget 2 (List.replicate 9 0 ++ [1, 1])).shared.w
        = ⟨84, true⟩ :=
  ⟨by decide,
    ((C14_no_intermediate_state_observed 2 (List.replicate 9 0 ++ [1, 1]) 1 Pc.hit
      (by decide)).2.1 (Or.inl rfl)).2⟩

/-- C16 (flag before value). Two threads call `Widget2::magicValue` on one new
object.  In the interleaving where thread 0 runs up to and including
`cacheValid = true` and thread 1 then makes its whole call, thread 1 sees
`cacheValid == true` and returns `cachedValue`, which is still 0, while thread 0
has not made the assignment to `cachedValue` yet; thread 0 then finishes and
returns 84. -/
theorem C16_flag_before_value :
    System.after Variant.widget2 2 [0, 0, 0, 0]
        = ⟨⟨⟨0, true⟩, none, 1, 1⟩, [Pc.store2 42 42, Pc.test]⟩ ∧
      System.after Variant.widget2 2 [0, 0, 0, 0, 1]
        = ⟨⟨⟨0, true⟩, none, 1, 1⟩, [Pc.store2 42 42, Pc.hit]⟩ ∧
      System.after Variant.widget2 2 [0, 0, 0, 0, 1, 1]
        = ⟨⟨⟨0, true⟩, none, 1, 1⟩, [Pc.store2 42 42, Pc.done 0]⟩ ∧
      System.after Variant.widget2 2 [0, 0, 0, 0, 1, 1, 0, 0]
        = ⟨⟨⟨84, true⟩, none, 1, 1⟩, [Pc.done 84, Pc.done 0]⟩ ∧
      (∃ sched, (System.after Variant.widget2 2 sched).threads = [Pc.done 84, Pc.done 0]) := by
  refine ⟨by decide, by decide, by decide, by decide, ⟨[0, 0, 0, 0, 1, 1, 0, 0], by decide⟩⟩

/-- C17 (value before flag). Two threads call `Widget1::magicValue` on one new
object.  In the interleaving where thread 0 runs up to and including
`cachedValue = val1 + val2` and thread 1 then makes its whole call, thread 1
sees `cacheValid == false` and runs both expensive computations again, so each
has run twice; both calls return 84. -/
theorem C17_value_before_flag :
    System.after Variant.widget1 2 [0, 0, 0, 0]
        = ⟨⟨⟨84, false⟩, none, 1, 1⟩, [Pc.store2 42 42, Pc.test]⟩ ∧
      System.after Variant.widget1 2 [0, 0, 0, 0, 1]
        = ⟨⟨⟨84, false⟩, none, 1, 1⟩, [Pc.store2 42 42, Pc.comp1]⟩ ∧
      System.after Variant.widget1 2 [0, 0, 0, 0, 1, 1, 1]
        = ⟨⟨⟨84, false⟩, none, 2, 2⟩, [Pc.store2 42 42, Pc.store1 42 42]⟩ ∧
      System.after Variant.widget1 2 [0, 0, 0, 0, 1, 1, 1, 1, 1, 1, 0, 0]
        = ⟨⟨⟨84, true⟩, none, 2, 2⟩, [Pc.done 84, Pc.done 84]⟩ ∧
      (∃ sched, 1 < (System.after Variant.widget1 2 sched).shared.ran1 ∧
        1 < (System.after Variant.widget1 2 sched).shared.ran2) := by
  refine ⟨by decide, by decide, by decide, by decide, ⟨[0, 0, 0, 0, 1, 1, 1], by decide⟩⟩

end thread_safe

end Item16

/-! ## Item 15: `cpp_11::pow` -/

namespace Item15

theorem wrapInt_of_isInt (x : Int) (h : IsInt x) : wrapInt x = x := by
  unfold IsInt at h
  unfold wrapInt
  norm_num at h ⊢
  omega

theorem wrapInt_mul_wrapInt (a b : Int) : wrapInt (a * wrapInt b) = wrapInt (a * b) := by
  have hb : wrapInt b = b - 2 ^ 32 * ((b + 2 ^ 31) / 2 ^ 32) := by
    unfold wrapInt
    have := Int.emod_add_ediv (b + 2 ^ 31) (2 ^ 32)
    linarith
  have hmul : a * wrapInt b = a * b - 2 ^ 32 * (a * ((b + 2 ^ 31) / 2 ^ 32)) := by
    rw [hb]
    ring
  rw [hmul]
  unfold wrapInt
  generalize a * b = x
  generalize a * ((b + 2 ^ 31) / 2 ^ 32) = y
  norm_num
  omega

theorem isInt_pow_of_succ (b : Int) (j : Nat) (h : IsInt (b ^ (j + 1))) : IsInt (b ^ j) := by
  unfold IsInt at h ⊢
  have hs : b ^ (j + 1) = b ^ j * b := pow_succ b j
  rw [hs] at h
  rcases lt_trichotomy b 0 with hneg | hzero | hpos
  · by_cases hb : b = -1
    · subst hb
      rcases neg_one_pow_eq_or ℤ j with h1 | h1 <;> rw [h1] <;> norm_num
    · have hb2 : b ≤ -2 := by omega
      generalize b ^ j = x at h ⊢
      norm_num at h ⊢
      constructor
      · by_contra hlt
        push_neg at hlt
        nlinarith
      · by_contra hge
        push_neg at hge
        nlinarith
  · subst hzero
    cases j with
    | zero => norm_num
    | succ j => simp
  · generalize b ^ j = x at h ⊢
    norm_num at h ⊢
    constructor
    · by_contra hlt
      push_neg at hlt
      nlinarith
    · by_contra hge
      push_neg at hge
      nlinarith

theorem isInt_pow_of_le (b : Int) (e j : Nat) (hle : j ≤ e) (h : IsInt (b ^ e)) :
    IsInt (b ^ j) := by
  induction e with
  | zero =>
    have : j = 0 := Nat.le_zero.mp hle
    subst this
    exact h
  | succ e ih =>
    by_cases hje : j = e + 1
    · subst hje; exact h
    · exact ih (by omega) (isInt_pow_of_succ b e h)

theorem pow_eq_wrapInt (base : Int) (e fuel : Nat) (hfuel : e < fuel)
    (hexp : (e : Int) < 2 ^ 31) :
    cpp_11.pow fuel base (e : Int) = some (wrapInt (base ^ e)) := by
  induction e generalizing fuel with
  | zero =>
    cases fuel with
    | zero => omega
    | succ fuel =>
      simp only [cpp_11.pow, Nat.cast_zero, if_true, pow_zero]
      rw [wrapInt_of_isInt 1 (by unfold IsInt; norm_num)]
  | succ e ih =>
    cases fuel with
    | zero => omega
    | succ fuel =>
      have hne : ((e + 1 : Nat) : Int) ≠ 0 := by omega
      have hpred : wrapInt (((e + 1 : Nat) : Int) - 1) = (e : Int) := by
        rw [wrapInt_of_isInt]
        · push_cast; ring
        · unfold IsInt
          push_cast at hexp ⊢
          norm_num at hexp ⊢
          omega
      have hrec := ih fuel (by omega) (by push_cast at hexp ⊢; omega)
      simp only [cpp_11.pow, if_neg hne, hpred, hrec, Option.map_some', wrapInt_mul_wrapInt]
      rw [pow_succ, mul_comm]

/-- C18 (`cpp_11::pow`). For every `int` `base` and every `exp` with
`0 <= exp` for which `base^exp` is representable as an `int`, the call
`pow(base, exp)` returns `base^exp` (the recursion ends within `exp + 1` calls);
every product formed on the way is representable too, so nothing overflows;
`pow(base, 0)` is 1; and `pow(3, 5)` is 243. -/
theorem C18_pow_correct (base exp : Int) (fuel : Nat) (hexp : 0 ≤ exp)
    (hint : exp < 2 ^ 31) (hrep : IsInt (base ^ exp.toNat)) (hfuel : exp.toNat < fuel) :
    cpp_11.pow fuel base exp = some (base ^ exp.toNat) ∧
      (∀ j, j ≤ exp.toNat → IsInt (base ^ j)) ∧
      cpp_11.pow fuel base 0 = some 1 ∧
      (cpp_11.pow 6 3 5 = some 243 ∧ (3 : Int) ^ 5 = 243) := by
  have hcast : ((exp.toNat : Nat) : Int) = exp := Int.toNat_of_nonneg hexp
  refine ⟨?_, fun j hj => isInt_pow_of_le base _ j hj hrep, ?_, by decide, by norm_num⟩
  · have h := pow_eq_wrapInt base exp.toNat fuel hfuel (by rw [hcast]; exact hint)
    rw [hcast, wrapInt_of_isInt _ hrep] at h
    exact h
  · cases fuel with
    | zero => omega
    | succ fuel => simp [cpp_11.pow]

/-- C18 at `(-2)^31`, the smallest `int`: no product on the way overflows. -/
theorem C18_pow_correct_witness :
    cpp_11.pow 32 (-2) 31 = some (-2147483648) :=
  (C18_pow_correct (-2) 31 32 (by decide) (by decide)
    (by unfold IsInt; decide) (by decide)).1.trans (by decide)

end Item15

/-! ## Item 13: `findAndInsert` -/

namespace Item13

namespace cpp14_standard

theorem seqInsert_zero {α : Type} (l : List α) (v : α) : seqInsert l 0 v = v :: l := by
  simp [seqInsert]

theorem seqInsert_cons_succ {α : Type} (x : α) (xs : List α) (i : Nat) (v : α) :
    seqInsert (x :: xs) (i + 1) v = x :: seqInsert xs i v := by
  simp [seqInsert]

theorem stdFind_le {α : Type} [DecidableEq α] (l : List α) (t : α) :
    stdFind l t ≤ l.length := by
  induction l with
  | nil => simp [stdFind]
  | cons x xs ih =>
    by_cases hx : x = t
    · simp [stdFind, hx]
    · simp only [stdFind, if_neg hx, List.length_cons]
      omega

theorem stdFind_before {α : Type} [DecidableEq α] (l : List α) (t : α) (j : Nat)
    (hj : j < stdFind l t) : l[j]? ≠ some t := by
  induction l generalizing j with
  | nil => simp
  | cons x xs ih =>
    by_cases hx : x = t
    · simp [stdFind, hx] at hj
    · simp only [stdFind, if_neg hx] at hj
      cases j with
      | zero => simpa using hx
      | succ j =>
        simp only [List.getElem?_cons_succ]
        exact ih j (by omega)

theorem stdFind_at {α : Type} [DecidableEq α] (l : List α) (t : α) (hmem : t ∈ l) :
    l[stdFind l t]? = some t := by
  induction l with
  | nil => simp at hmem
  | cons x xs ih =>
    by_cases hx : x = t
    · simp [stdFind, hx]
    · simp only [stdFind, if_neg hx, List.getElem?_cons_succ]
      apply ih
      rcases List.mem_cons.mp hmem with h | h
      · exact absurd h.symm hx
      · exact h

theorem stdFind_absent {α : Type} [DecidableEq α] (l : List α) (t : α) (hmem : t ∉ l) :
    stdFind l t = l.length := by
  induction l with
  | nil => rfl
  | cons x xs ih =>
    have hx : x ≠ t := fun h => hmem (h ▸ List.mem_cons_self _ _)
    have hxs : t ∉ xs := fun h => hmem (List.mem_cons_of_mem _ h)
    simp [stdFind, hx, ih hxs]

theorem seqInsert_length {α : Type} (l : List α) (i : Nat) (v : α) :
    (seqInsert l i v).length = l.length + 1 := by
  simp only [seqInsert, List.length_append, List.length_take, List.length_cons,
    List.length_drop]
  omega

theorem seqInsert_at {α : Type} (l : List α) (i : Nat) (v : α) (hi : i ≤ l.length) :
    (seqInsert l i v)[i]? = some v := by
  induction l generalizing i with
  | nil =>
    have : i = 0 := by simpa using hi
    subst this
    rfl
  | cons x xs ih =>
    cases i with
    | zero => rw [seqInsert_zero]; rfl
    | succ i =>
      rw [seqInsert_cons_succ, List.getElem?_cons_succ]
      exact ih i (by simpa using hi)

theorem seqInsert_next {α : Type} (l : List α) (i : Nat) (v : α) (hi : i ≤ l.length) :
    (seqInsert l i v)[i + 1]? = l[i]? := by
  induction l generalizing i with
  | nil =>
    have : i = 0 := by simpa using hi
    subst this
    rfl
  | cons x xs ih =>
    cases i with
    | zero => rw [seqInsert_zero]; simp
    | succ i =>
      rw [seqInsert_cons_succ, List.getElem?_cons_succ, List.getElem?_cons_succ]
      exact ih i (by simpa using hi)

theorem seqInsert_eraseIdx {α : Type} (l : List α) (i : Nat) (v : α) (hi : i ≤ l.length) :
    (seqInsert l i v).eraseIdx i = l := by
  induction l generalizing i with
  | nil =>
    have : i = 0 := by simpa using hi
    subst this
    rfl
  | cons x xs ih =>
    cases i with
    | zero => rw [seqInsert_zero]; rfl
    | succ i =>
      rw [seqInsert_cons_succ, List.eraseIdx_cons_succ, ih i (by simpa using hi)]

/-- C19 (`findAndInsert`). For every sequence `c` and values `t`, `v`: the result
is one element longer; `v` stands at the position `std::find` returned; no
element before that position equals `t`; when `t` occurs in `c`, that position
held `t`, which now directly follows `v`; when `t` does not occur, the result is
`c` with `v` appended; and taking `v` out again gives back `c`, so the original
elements are all there in their original order.  On the empty vector,
`findAndInsert(values, 1983, 1998)` leaves `values[0] == 1998`. -/
theorem C19_findAndInsert {α : Type} [DecidableEq α] (l : List α) (t v : α) :
    (findAndInsert l t v).length = l.length + 1 ∧
      (findAndInsert l t v)[stdFind l t]? = some v ∧
      (∀ j, j < stdFind l t → l[j]? ≠ some t ∧ (findAndInsert l t v)[j]? = l[j]?) ∧
      (t ∈ l → l[stdFind l t]? = some t ∧ (findAndInsert l t v)[stdFind l t + 1]? = some t) ∧
      (t ∉ l → findAndInsert l t v = l ++ [v]) ∧
      (findAndInsert l t v).eraseIdx (stdFind l t) = l ∧
      findAndInsert l t v = l.take (stdFind l t) ++ v :: l.drop (stdFind l t) ∧
      test_findAndInsert = ([1998], some 1998) := by
  have hle := stdFind_le l t
  refine ⟨seqInsert_length _ _ _, seqInsert_at _ _ _ hle, ?_, ?_, ?_,
    seqInsert_eraseIdx _ _ _ hle, rfl, rfl⟩
  · intro j hj
    refine ⟨stdFind_before l t j hj, ?_⟩
    simp only [findAndInsert, seqInsert]
    rw [List.getElem?_append_left (by simp; omega), List.getElem?_take_of_lt hj]
  · intro hmem
    refine ⟨stdFind_at l t hmem, ?_⟩
    simp only [findAndInsert]
    rw [seqInsert_next _ _ _ hle, stdFind_at l t hmem]
  · intro hmem
    simp [findAndInsert, seqInsert, stdFind_absent l t hmem]

/-- C19 on `{1, 2, 3, 2}`: 9 goes in front of the first 2. -/
theorem C19_findAndInsert_witness :
    findAndInsert [1, 2, 3, 2] 2 9 = [1, 9, 2, 3, 2] ∧
      (findAndInsert [1, 2, 3, 2] 2 9)[stdFind [1, 2, 3, 2] 2 + 1]? = some 2 :=
  ⟨by decide, ((C19_findAndInsert [1, 2, 3, 2] 2 9).2.2.2.1 (by decide)).2⟩

end cpp14_standard

end Item13

/-! ## Item 27: tag dispatch -/

namespace Item27

namespace tag_dispatch1

/-- C20 (tag dispatch). For every `int idx`, `logAndAdd(idx)` leaves `names` with
exactly one more element, `nameFromIdx(idx)`, which is the text "name" followed
by the decimal representation of `idx`; for every string `s`, `logAndAdd(s)`
leaves `names` with exactly one more element, `s`; in both cases only the
multiplicity of the added element changes, by one.  After `test()` on the empty
`names`, `names` is {Darla, Patty Dog, Persephone, name1}. -/
theorem C20_tag_dispatch (names : Multiset String) (idx : Int) (s x : String) :
    logAndAdd names (Arg.int idx) = nameFromIdx idx ::ₘ names ∧
      nameFromIdx idx = "name" ++ to_string idx ∧
      Multiset.count x (logAndAdd names (Arg.int idx))
        = Multiset.count x names + (if x = nameFromIdx idx then 1 else 0) ∧
      Multiset.card (logAndAdd names (Arg.int idx)) = Multiset.card names + 1 ∧
      logAndAdd names (Arg.str s) = s ::ₘ names ∧
      Multiset.count x (logAndAdd names (Arg.str s))
        = Multiset.count x names + (if x = s then 1 else 0) ∧
      Multiset.card (logAndAdd names (Arg.str s)) = Multiset.card names + 1 ∧
      (nameFromIdx 1 = "name1" ∧ nameFromIdx 0 = "name0" ∧ nameFromIdx (-12) = "name-12" ∧
        nameFromIdx 2147483647 = "name2147483647") ∧
      test 0 = {"Darla", "Patty Dog", "Persephone", "name1"} := by
  refine ⟨rfl, rfl, ?_, ?_, rfl, ?_, ?_, ⟨by decide, by decide, by decide, by decide⟩,
    by decide⟩
  · exact Multiset.count_cons x (nameFromIdx idx) names
  · exact Multiset.card_cons (nameFromIdx idx) names
  · exact Multiset.count_cons x s names
  · exact Multiset.card_cons s names

end tag_dispatch1

end Item27

/-! ## Item 16: the three classes in a single thread -/

namespace Item16

namespace thread_safe

theorem widget_calls_valid (v : Int) (n : Nat) :
    Widget.calls ⟨v, true⟩ n = (⟨v, true⟩, List.replicate n v) := by
  induction n with
  | zero => rfl
  | succ n ih => simp only [Widget.calls, Widget.magicValue_valid, ih, List.replicate_succ]

theorem widget1_calls_valid (v : Int) (n : Nat) :
    Widget1.calls ⟨true, v⟩ n = (⟨true, v⟩, List.replicate n v) := by
  induction n with
  | zero => rfl
  | succ n ih =>
    have hcall : Widget1.magicValue ⟨true, v⟩ = (⟨true, v⟩, v) := rfl
    simp only [Widget1.calls, hcall, ih, List.replicate_succ]

theorem widget2_calls_valid (v : Int) (n : Nat) :
    Widget2.calls ⟨true, v⟩ n = (⟨true, v⟩, List.replicate n v) := by
  induction n with
  | zero => rfl
  | succ n ih =>
    have hcall : Widget2.magicValue ⟨true, v⟩ = (⟨true, v⟩, v) := rfl
    simp only [Widget2.calls, hcall, ih, List.replicate_succ]

/-- C25 (single-threaded equivalence). For every number `n + 1` of successive
`magicValue` calls on a new object, `Widget1`, `Widget2` and `Widget` return the
same values, 84 on every call, and each ends with `cacheValid == true` and
`cachedValue == 84`; on no call at all each is still in its initial state. -/
theorem C25_single_thread_equivalence (n : Nat) :
    (Widget1.calls Widget1.new (n + 1)).2 = List.replicate (n + 1) 84 ∧
      (Widget2.calls Widget2.new (n + 1)).2 = List.replicate (n + 1) 84 ∧
      (Widget.calls Widget.new (n + 1)).2 = List.replicate (n + 1) 84 ∧
      (Widget1.calls Widget1.new (n + 1)).1 = ⟨true, 84⟩ ∧
      (Widget2.calls Widget2.new (n + 1)).1 = ⟨true, 84⟩ ∧
      (Widget.calls Widget.new (n + 1)).1 = ⟨84, true⟩ ∧
      ((Widget1.calls Widget1.new 0).2 = (Widget.calls Widget.new 0).2 ∧
        (Widget2.calls Widget2.new 0).2 = (Widget.calls Widget.new 0).2) := by
  have h1 : Widget1.calls Widget1.new (n + 1) = (⟨true, 84⟩, List.replicate (n + 1) 84) := by
    have hcall : Widget1.magicValue Widget1.new = (⟨true, 84⟩, 84) := rfl
    simp only [Widget1.calls, hcall, widget1_calls_valid, List.replicate_succ]
  have h2 : Widget2.calls Widget2.new (n + 1) = (⟨true, 84⟩, List.replicate (n + 1) 84) := by
    have hcall : Widget2.magicValue Widget2.new = (⟨true, 84⟩, 84) := rfl
    simp only [Widget2.calls, hcall, widget2_calls_valid, List.replicate_succ]
  have h3 : Widget.calls Widget.new (n + 1) = (⟨84, true⟩, List.replicate (n + 1) 84) := by
    simp only [Widget.calls, Widget.new, Widget.magicValue_invalid, widget_calls_valid,
      List.replicate_succ]
  rw [h1, h2, h3]
  exact ⟨rfl, rfl, rfl, rfl, rfl, rfl, rfl, rfl⟩

end thread_safe

end Item16

/-! ## Item 15: the two power functions agree -/

namespace Item15

theorem wrapInt_wrapInt_mul (a b : Int) : wrapInt (wrapInt a * b) = wrapInt (a * b) := by
  rw [mul_comm, wrapInt_mul_wrapInt, mul_comm]

theorem wrapInt_idem (a : Int) : wrapInt (wrapInt a) = wrapInt a := by
  have h := wrapInt_mul_wrapInt 1 a
  simpa using h

theorem powLoop_eq (base : Int) (e : Nat) (he : (e : Int) < 2 ^ 31) (n k fuel : Nat)
    (r : Int) (hk : k + n = e) (hfuel : n < fuel) :
    cpp_14.powLoop fuel base (e : Int) (k : Int) (wrapInt r)
      = some (wrapInt (r * base ^ n)) := by
  induction n generalizing k fuel r with
  | zero =>
    cases fuel with
    | zero => omega
    | succ fuel =>
      have hnot : ¬ ((k : Int) < (e : Int)) := by omega
      simp only [cpp_14.powLoop, if_neg hnot, pow_zero, mul_one]
  | succ n ih =>
    cases fuel with
    | zero => omega
    | succ fuel =>
      have hlt : (k : Int) < (e : Int) := by omega
      have hnext : wrapInt ((k : Int) + 1) = ((k + 1 : Nat) : Int) := by
        rw [wrapInt_of_isInt]
        · push_cast; ring
        · unfold IsInt
          norm_num at he ⊢
          omega
      simp only [cpp_14.powLoop, if_pos hlt, hnext]
      rw [wrapInt_wrapInt_mul, ih (k + 1) fuel (r * base) (by omega) (by omega)]
      have hmul : r * base * base ^ n = r * base ^ (n + 1) := by
        rw [pow_succ]
        ring
      rw [hmul]

theorem pow14_eq_wrapInt (base : Int) (e fuel : Nat) (hfuel : e < fuel)
    (hexp : (e : Int) < 2 ^ 31) :
    cpp_14.pow fuel base (e : Int) = some (wrapInt (base ^ e)) := by
  have h := powLoop_eq base e hexp e 0 fuel 1 (by omega) hfuel
  rw [wrapInt_of_isInt 1 (by unfold IsInt; norm_num), one_mul] at h
  exact h

/-- C27 (the two power functions agree). For every `int` `base` and every `exp`
with `0 <= exp`, with products taken modulo `2^32`: `cpp_11::pow(base, exp)` and
`cpp_14::pow(base, exp)` both return, and return the same value, the residue of
`base^exp`; when `base^exp` is representable both return exactly `base^exp`. -/
theorem C27_pow_agree (base exp : Int) (fuel1 fuel2 : Nat) (hexp : 0 ≤ exp)
    (hint : exp < 2 ^ 31) (hfuel1 : exp.toNat < fuel1) (hfuel2 : exp.toNat < fuel2) :
    cpp_11.pow fuel1 base exp = cpp_14.pow fuel2 base exp ∧
      cpp_14.pow fuel2 base exp = some (wrapInt (base ^ exp.toNat)) ∧
      (IsInt (base ^ exp.toNat) →
        cpp_11.pow fuel1 base exp = some (base ^ exp.toNat) ∧
          cpp_14.pow fuel2 base exp = some (base ^ exp.toNat)) := by
  have hcast : ((exp.toNat : Nat) : Int) = exp := Int.toNat_of_nonneg hexp
  have h11 := pow_eq_wrapInt base exp.toNat fuel1 hfuel1 (by rw [hcast]; exact hint)
  have h14 := pow14_eq_wrapInt base exp.toNat fuel2 hfuel2 (by rw [hcast]; exact hint)
  rw [hcast] at h11 h14
  refine ⟨by rw [h11, h14], h14, ?_⟩
  intro hrep
  rw [h11, h14, wrapInt_of_isInt _ hrep]
  exact ⟨rfl, rfl⟩

/-- C27 at `2^33`, which is not representable: both functions return 0. -/
theorem C27_pow_agree_witness :
    cpp_11.pow 34 2 33 = cpp_14.pow 34 2 33 ∧ cpp_14.pow 34 2 33 = some 0 :=
  have h := C27_pow_agree 2 33 34 34 (by decide) (by decide) (by decide) (by decide)
  ⟨h.1, h.2.1.trans (by decide)⟩

end Item15

/-! ## Item 14: the swaps -/

namespace Item14

namespace cpp11

theorem swapAt_getElem? {T : Type} (a b : List T) (i j : Nat) (hlen : a.length = b.length) :
    (swapAt a b i).1[j]? = (if j = i then b[j]? else a[j]?) ∧
      (swapAt a b i).2[j]? = (if j = i then a[j]? else b[j]?) := by
  unfold swapAt
  by_cases hi : i < a.length
  · have hib : i < b.length := hlen ▸ hi
    rw [List.getElem?_eq_getElem hi, List.getElem?_eq_getElem hib]
    simp only [List.getElem?_set]
    by_cases hji : j = i
    · subst hji
      simp [hi, hib]
    · simp [hji, Ne.symm hji]
  · have hib : ¬ i < b.length := hlen ▸ hi
    rw [List.getElem?_eq_none (Nat.le_of_not_lt hi)]
    by_cases hji : j = i
    · subst hji
      simp [List.getElem?_eq_none (Nat.le_of_not_lt hi),
        List.getElem?_eq_none (Nat.le_of_not_lt hib)]
    · simp [hji]

theorem swapAt_length {T : Type} (a b : List T) (i : Nat) :
    (swapAt a b i).1.length = a.length ∧ (swapAt a b i).2.length = b.length := by
  unfold swapAt
  cases a[i]? <;> cases b[i]? <;> simp

theorem swapLoop_getElem? {T : Type} (n : Nat) (a b : List T) (i j : Nat)
    (hlen : a.length = b.length) :
    (swapLoop a b i n).1[j]? = (if i ≤ j ∧ j < i + n then b[j]? else a[j]?) ∧
      (swapLoop a b i n).2[j]? = (if i ≤ j ∧ j < i + n then a[j]? else b[j]?) := by
  induction n generalizing a b i with
  | zero =>
    have hno : ¬ (i ≤ j ∧ j < i) := by omega
    simp [swapLoop, hno]
  | succ n ih =>
    have hl := swapAt_length a b i
    have hstep := swapAt_getElem? a b i j hlen
    have hrec := ih (swapAt a b i).1 (swapAt a b i).2 (i + 1) (by rw [hl.1, hl.2, hlen])
    simp only [swapLoop]
    rw [hrec.1, hrec.2, hstep.1, hstep.2]
    by_cases hji : j = i
    · subst hji
      have h1 : ¬ (j + 1 ≤ j ∧ j < j + 1 + n) := by omega
      have h2 : j ≤ j ∧ j < j + (n + 1) := by omega
      simp [h1, h2]
    · by_cases hin : i + 1 ≤ j ∧ j < i + 1 + n
      · have h2 : i ≤ j ∧ j < i + (n + 1) := by omega
        simp [hin, h2, hji]
      · have h2 : ¬ (i ≤ j ∧ j < i + (n + 1)) := by omega
        simp [hin, h2, hji]

/-- C22 (swap). For every two arrays `a`, `b` of the same length `N`,
`swap(a, b)` leaves `a` with the former contents of `b` and `b` with the former
contents of `a`; `pair::swap` leaves `*this` with the former `first` and `second`
of `p`, and `p` with those of `*this`; and `a = {1,2,3}`, `b = {4,5,6}` become
`a = {4,5,6}`, `b = {1,2,3}`. -/
theorem C22_swap {T T1 T2 : Type} (N : Nat) (a b : List T) (p q : pair T1 T2)
    (ha : a.length = N) (hb : b.length = N) :
    swap N a b = (b, a) ∧
      (∀ i : Nat, (swap N a b).1[i]? = b[i]? ∧ (swap N a b).2[i]? = a[i]?) ∧
      pair.swap p q = (q, p) ∧
      ((pair.swap p q).1.first = q.first ∧ (pair.swap p q).1.second = q.second ∧
        (pair.swap p q).2.first = p.first ∧ (pair.swap p q).2.second = p.second) ∧
      test_swap = ([4, 5, 6], [1, 2, 3]) := by
  have hpt : ∀ i : Nat, (swap N a b).1[i]? = b[i]? ∧ (swap N a b).2[i]? = a[i]? := by
    intro i
    have h := swapLoop_getElem? N a b 0 i (ha.trans hb.symm)
    unfold swap
    rw [h.1, h.2]
    by_cases hi : i < N
    · simp [hi]
    · have hia : a[i]? = none := List.getElem?_eq_none (by omega)
      have hib : b[i]? = none := List.getElem?_eq_none (by omega)
      simp [hi, hia, hib]
  refine ⟨?_, hpt, rfl, ⟨rfl, rfl, rfl, rfl⟩, by decide⟩
  apply Prod.ext
  · exact List.ext_getElem? (fun i => (hpt i).1)
  · exact List.ext_getElem? (fun i => (hpt i).2)

/-- C22 on the arrays of `test_swap`. -/
theorem C22_swap_witness :
    swap 3 [1, 2, 3] [4, 5, 6] = ([4, 5, 6], [1, 2, 3]) :=
  (C22_swap 3 [1, 2, 3] [4, 5, 6] (⟨0, 0⟩ : pair Int Int) (⟨0, 0⟩ : pair Int Int) rfl
    rfl).1

end cpp11

end Item14

/-! ## Item 18: `makeInvestment` -/

namespace Item18

/-- C21 (`cpp11::makeInvestment`). For every state of the flags: when
`needStock` is set the call constructs one `Stock` and returns the pointer to
it; otherwise, when `needBond` is set, one `Bond`; otherwise, when
`needRealEstate` is set, one `RealEstate`; otherwise it constructs nothing and
returns null.  A call constructs at most one object, destroys none and leaves
the flags as they are.  From the initial flags the three calls of
`test_makeInvestment11` return a `Stock`, a `Bond` and a `RealEstate`, in that
order. -/
theorem C21_makeInvestment (s : State) :
    (s.needStock = true →
        (cpp11.makeInvestment s).2 = some s.heap.length ∧
          (cpp11.makeInvestment s).1.heap = s.heap ++ [(Kind.Stock, true)]) ∧
      (s.needStock = false → s.needBond = true →
        (cpp11.makeInvestment s).2 = some s.heap.length ∧
          (cpp11.makeInvestment s).1.heap = s.heap ++ [(Kind.Bond, true)]) ∧
      (s.needStock = false → s.needBond = false → s.needRealEstate = true →
        (cpp11.makeInvestment s).2 = some s.heap.length ∧
          (cpp11.makeInvestment s).1.heap = s.heap ++ [(Kind.RealEstate, true)]) ∧
      (s.needStock = false → s.needBond = false → s.needRealEstate = false →
        (cpp11.makeInvestment s).2 = none ∧ (cpp11.makeInvestment s).1 = s) ∧
      (cpp11.makeInvestment s).1.heap.length ≤ s.heap.length + 1 ∧
      ((cpp11.makeInvestment s).1.needStock = s.needStock ∧
        (cpp11.makeInvestment s).1.needBond = s.needBond ∧
        (cpp11.makeInvestment s).1.needRealEstate = s.needRealEstate) ∧
      (kindOf (test_makeInvestment11_body State.init).state
          (test_makeInvestment11_body State.init).pInv = some Kind.Stock ∧
        kindOf (test_makeInvestment11_body State.init).state
          (test_makeInvestment11_body State.init).pInv2 = some Kind.Bond ∧
        kindOf (test_makeInvestment11_body State.init).state
          (test_makeInvestment11_body State.init).pInv3 = some Kind.RealEstate) := by
  obtain ⟨f1, f2, f3, heap, out⟩ := s
  cases f1 <;> cases f2 <;> cases f3 <;>
    simp [cpp11.makeInvestment, newObj, UniquePtr.reset] <;> decide

/-- C21 at the flags `needStock = false`, `needBond = true`, `needRealEstate = true`:
a `Bond`, by priority. -/
theorem C21_makeInvestment_witness :
    (cpp11.makeInvestment ⟨false, true, true, [], []⟩).2 = some 0 ∧
      (cpp11.makeInvestment ⟨false, true, true, [], []⟩).1.heap = [(Kind.Bond, true)] :=
  (C21_makeInvestment ⟨false, true, true, [], []⟩).2.1 rfl rfl

end Item18

/-! ## Item 20: cycles of owners -/

namespace Item20

theorem getElem?_append_len {α : Type} (l : List α) (x : α) (t : List α) :
    (l ++ x :: t)[l.length]? = some x := by
  rw [List.getElem?_append_right (Nat.le_refl _)]
  simp

theorem getElem?_append_len_succ {α : Type} (l : List α) (x y : α) (t : List α) :
    (l ++ x :: y :: t)[l.length + 1]? = some y := by
  rw [List.getElem?_append_right (Nat.le_succ _)]
  simp

theorem set_append_len {α : Type} (l : List α) (x z : α) (t : List α) :
    (l ++ x :: t).set l.length z = l ++ z :: t := by
  induction l with
  | nil => rfl
  | cons a l ih => simp [ih]

theorem set_append_len_succ {α : Type} (l : List α) (x y z : α) (t : List α) :
    (l ++ x :: y :: t).set (l.length + 1) z = l ++ x :: z :: t := by
  induction l with
  | nil => rfl
  | cons a l ih => simp [ih]

theorem test_circular_ref3_body_eq (fuel : Nat) (m : Mem) :
    test_circular_ref3_body fuel m true true
      = some (⟨m.heap ++ [⟨Node.A3 (SharedPtr.own (m.heap.length + 1)) 0, 1⟩,
            ⟨Node.B SharedPtr.null none (WeakPtr.obs m.heap.length), 2⟩], m.out⟩,
          SharedPtr.own m.heap.length, SharedPtr.own (m.heap.length + 1)) := by
  simp only [test_circular_ref3_body, make_shared, if_true, List.append_assoc,
    List.singleton_append, List.length_append, List.length_singleton, assignMember,
    updateObj, addOwner, release,
    getElem?_append_len, getElem?_append_len_succ, set_append_len, set_append_len_succ,
    Node.setMember, Node.setWeak, Node.member, WeakPtr.ofShared]

theorem release_first_shared (fuel : Nat) (l : Heap Node) (p : Node) (n : Nat) (y : Obj Node)
    (out : List String) (hn : n ≠ 1) :
    release (fuel + 1) ⟨l ++ [⟨p, n⟩, y], out⟩ (SharedPtr.own l.length)
      = some ⟨l ++ [⟨p, n - 1⟩, y], out⟩ := by
  simp only [release, getElem?_append_len, set_append_len, if_neg hn]

theorem release_second_shared (fuel : Nat) (l : Heap Node) (x : Obj Node) (p : Node) (n : Nat)
    (out : List String) (hn : n ≠ 1) :
    release (fuel + 1) ⟨l ++ [x, ⟨p, n⟩], out⟩ (SharedPtr.own (l.length + 1))
      = some ⟨l ++ [x, ⟨p, n - 1⟩], out⟩ := by
  simp only [release, getElem?_append_len_succ, set_append_len_succ, if_neg hn]

theorem release_first_last (fuel : Nat) (l : Heap Node) (p : Node) (y : Obj Node)
    (out : List String) :
    release (fuel + 1) ⟨l ++ [⟨p, 1⟩, y], out⟩ (SharedPtr.own l.length)
      = release fuel ⟨l ++ [⟨p, 0⟩, y], out ++ [p.dtorLine]⟩ p.member := by
  simp only [release, getElem?_append_len, set_append_len, if_true]

theorem release_second_last (fuel : Nat) (l : Heap Node) (x : Obj Node) (p : Node)
    (out : List String) :
    release (fuel + 1) ⟨l ++ [x, ⟨p, 1⟩], out⟩ (SharedPtr.own (l.length + 1))
      = release fuel ⟨l ++ [x, ⟨p, 0⟩], out ++ [p.dtorLine]⟩ p.member := by
  simp only [release, getElem?_append_len_succ, set_append_len_succ, if_true]

theorem test_circular_ref3_eq (fuel : Nat) (m : Mem) :
    test_circular_ref3 (fuel + 2) m true true
      = some ⟨m.heap ++ [⟨Node.A3 (SharedPtr.own (m.heap.length + 1)) 0, 0⟩,
            ⟨Node.B SharedPtr.null none (WeakPtr.obs m.heap.length), 0⟩],
          m.out ++ ["A3 is destroyed\n", "B is destroyed\n"]⟩ := by
  simp only [test_circular_ref3, test_circular_ref3_body_eq]
  rw [release_second_shared _ _ _ _ _ _ (by decide)]
  simp only [Nat.add_one_sub_one]
  rw [release_first_last, Node.member, release_second_last, Node.member]
  simp only [release, Node.dtorLine, List.append_assoc, List.singleton_append]

theorem test_circular_ref_body_eq (fuel : Nat) (m : Mem) :
    test_circular_ref_body fuel m true true
      = some (⟨m.heap ++ [⟨Node.A (SharedPtr.own (m.heap.length + 1)) 0, 2⟩,
            ⟨Node.B (SharedPtr.own m.heap.length) none WeakPtr.empty, 2⟩], m.out⟩,
          SharedPtr.own m.heap.length, SharedPtr.own (m.heap.length + 1)) := by
  simp only [test_circular_ref_body, make_shared, if_true, List.append_assoc,
    List.singleton_append, List.length_append, List.length_singleton, assignMember,
    updateObj, addOwner, release,
    getElem?_append_len, getElem?_append_len_succ, set_append_len, set_append_len_succ,
    Node.setMember, Node.member]

theorem test_circular_ref_eq (fuel : Nat) (m : Mem) :
    test_circular_ref (fuel + 1) m true true
      = some ⟨m.heap ++ [⟨Node.A (SharedPtr.own (m.heap.length + 1)) 0, 1⟩,
            ⟨Node.B (SharedPtr.own m.heap.length) none WeakPtr.empty, 1⟩], m.out⟩ := by
  simp only [test_circular_ref, test_circular_ref_body_eq]
  rw [release_second_shared _ _ _ _ _ _ (by decide)]
  simp only [Nat.add_one_sub_one]
  rw [release_first_shared _ _ _ _ _ _ (by decide)]

theorem useCount_append_len {α : Type} (l : Heap α) (x : Obj α) (t : Heap α) :
    useCount (l ++ x :: t) l.length = x.strong := by
  simp only [useCount, getElem?_append_len]

theorem useCount_append_len_succ {α : Type} (l : Heap α) (x y : Obj α) (t : Heap α) :
    useCount (l ++ x :: y :: t) (l.length + 1) = y.strong := by
  simp only [useCount, getElem?_append_len_succ]

/-- C23 (a weak back-pointer breaks the cycle). In `test_circular_ref3`, started
in any state with both allocations succeeding: at the closing brace the `A3`
object has owner count 1 (the local `pa3` only: the `B` object observes it
through its weak member `pa3`, which does not count) and the `B` object has
owner count 2 (`pb` and the member `pb` of the `A3` object); when the function
has returned, both owner counts are 0, and the lines printed are "A3 is
destroyed" and then "B is destroyed".  The objects that existed before are not
touched. -/
theorem C23_weak_back_pointer (fuel : Nat) (m : Mem) :
    test_circular_ref3_body fuel m true true
        = some (⟨m.heap ++ [⟨Node.A3 (SharedPtr.own (m.heap.length + 1)) 0, 1⟩,
              ⟨Node.B SharedPtr.null none (WeakPtr.obs m.heap.length), 2⟩], m.out⟩,
            SharedPtr.own m.heap.length, SharedPtr.own (m.heap.length + 1)) ∧
      (test_circular_ref3_body fuel m true true).map
          (fun r => (useCount r.1.heap m.heap.length, useCount r.1.heap (m.heap.length + 1)))
        = some (1, 2) ∧
      test_circular_ref3 (fuel + 2) m true true
        = some ⟨m.heap ++ [⟨Node.A3 (SharedPtr.own (m.heap.length + 1)) 0, 0⟩,
              ⟨Node.B SharedPtr.null none (WeakPtr.obs m.heap.length), 0⟩],
            m.out ++ ["A3 is destroyed\n", "B is destroyed\n"]⟩ ∧
      (test_circular_ref3 (fuel + 2) m true true).map
          (fun r => (useCount r.heap m.heap.length, useCount r.heap (m.heap.length + 1),
            r.out))
        = some (0, 0, m.out ++ ["A3 is destroyed\n", "B is destroyed\n"]) ∧
      (test_circular_ref3 2 ⟨[], []⟩ true true).map (fun r => r.out)
        = some ["A3 is destroyed\n", "B is destroyed\n"] := by
  refine ⟨test_circular_ref3_body_eq fuel m, ?_, test_circular_ref3_eq fuel m, ?_, by decide⟩
  · rw [test_circular_ref3_body_eq]
    simp only [Option.map_some', useCount_append_len, useCount_append_len_succ]
  · rw [test_circular_ref3_eq]
    simp only [Option.map_some', useCount_append_len, useCount_append_len_succ]

/-- C24 (an owning cycle leaks). In `test_circular_ref`, started in any state with
both allocations succeeding: at the closing brace the `A` object and the `B`
object have owner count 2 each (a local and the member of the other object);
when the function has returned, both have owner count 1, the one owner of each
being the member of the other, and no destructor has run: nothing was printed.
At the end of the three calls of `main` the two objects still have owner
count 1 and the only lines printed are those of the other two functions. -/
theorem C24_owning_cycle_leaks (fuel : Nat) (m : Mem) :
    test_circular_ref_body fuel m true true
        = some (⟨m.heap ++ [⟨Node.A (SharedPtr.own (m.heap.length + 1)) 0, 2⟩,
              ⟨Node.B (SharedPtr.own m.heap.length) none WeakPtr.empty, 2⟩], m.out⟩,
            SharedPtr.own m.heap.length, SharedPtr.own (m.heap.length + 1)) ∧
      test_circular_ref (fuel + 1) m true true
        = some ⟨m.heap ++ [⟨Node.A (SharedPtr.own (m.heap.length + 1)) 0, 1⟩,
              ⟨Node.B (SharedPtr.own m.heap.length) none WeakPtr.empty, 1⟩], m.out⟩ ∧
      (test_circular_ref (fuel + 1) m true true).map
          (fun r => (useCount r.heap m.heap.length, useCount r.heap (m.heap.length + 1),
            r.out))
        = some (1, 1, m.out) ∧
      (main_circular 2).map (fun r => (useCount r.heap 0, useCount r.heap 1, r.out))
        = some (1, 1, ["A2 is destroyed\n", "B is destroyed\n", "A3 is destroyed\n",
            "B is destroyed\n"]) := by
  refine ⟨test_circular_ref_body_eq fuel m, test_circular_ref_eq fuel m, ?_, by decide⟩
  rw [test_circular_ref_eq]
  simp only [Option.map_some', useCount_append_len, useCount_append_len_succ]

/-! ## Key isolation -/

theorem cacheFind_subscript_obs (c : Cache) (k j : Int) (id : ObjId)
    (h : cacheFind (cacheSubscript c k).1 j = some (WeakPtr.obs id)) :
    cacheFind c j = some (WeakPtr.obs id) := by
  by_cases hjk : j = k
  · subst hjk
    unfold cacheSubscript at h
    cases hf : cacheFind c j with
    | some w => simpa [hf] using h
    | none => simp [hf, cacheFind_append, cacheFind] at h
  · rwa [cacheFind_subscript_other _ _ _ hjk] at h

theorem Client.keyed_init : Client.init.Keyed := by
  refine ⟨rfl, ?_⟩
  intro j id h
  simp [Client.init, World.init, cacheFind] at h

theorem Client.keyed_step (c : Client) (op : Op) (hk : c.Keyed) : (c.step op).Keyed := by
  obtain ⟨hlen, hkey⟩ := hk
  cases op with
  | drop n =>
    simp only [Client.step]
    cases hget : c.held[n]? with
    | none => exact ⟨hlen, hkey⟩
    | some id =>
      refine ⟨?_, hkey⟩
      simp only [length_reset]
      exact hlen
  | call k a =>
    rcases hit_or_miss c.world k with ⟨id, hentry, hlive⟩ | hmiss
    · obtain ⟨o, hget, hstrong, hcall⟩ := fastLoadWidget_hit c.world k id a hentry hlive
      simp only [Client.step, hcall, List.length_set, Nat.sub_self, List.replicate_zero,
        List.append_nil]
      exact ⟨by simpa using hlen, hkey⟩
    · have hcall := fastLoadWidget_miss c.world k a hmiss
      cases a with
      | false =>
        simp only [Bool.false_eq_true, if_false] at hcall
        simp only [Client.step, hcall]
        refine ⟨hlen, ?_⟩
        intro j id h
        exact hkey j id (cacheFind_subscript_obs _ _ _ _ h)
      | true =>
        simp only [if_true] at hcall
        simp only [Client.step, hcall, List.length_append, List.length_singleton,
          Nat.add_sub_cancel_left, List.replicate_one]
        refine ⟨by simp [hlen], ?_⟩
        intro j id h
        by_cases hjk : j = k
        · subst hjk
          rw [cacheFind_cacheSet_same _ _ _ (by rw [cacheFind_subscript_same]; rfl)] at h
          simp only [Option.some.injEq, WeakPtr.obs.injEq] at h
          rw [← h, ← hlen]
          simp
        · rw [cacheFind_cacheSet_other _ _ _ _ hjk] at h
          have hold := hkey j id (cacheFind_subscript_obs _ _ _ _ h)
          have hlt : id < c.producedFor.length := by
            by_contra hge
            rw [List.getElem?_eq_none (Nat.le_of_not_lt hge)] at hold
            cases hold
          rw [List.getElem?_append_left hlt]
          exact hold

theorem Client.keyed_run (ops : List Op) : (Client.run ops).Keyed := by
  have h : ∀ (l : List Op) (c : Client), c.Keyed → (l.foldl Client.step c).Keyed := by
    intro l
    induction l with
    | nil => exact fun c hc => hc
    | cons op rest ih => exact fun c hc => ih _ (Client.keyed_step c op hc)
  exact h ops Client.init Client.keyed_init

/-- The entry of a key other than the one looked up is the same after the call,
in any state. -/
theorem fastLoadWidget_other_entry (s : World) (k j : Int) (allocOk : Bool) (hjk : j ≠ k) :
    cacheFind (fastLoadWidget s k allocOk).1.cache j = cacheFind s.cache j := by
  rcases fastLoadWidget_cache s k allocOk with h | h | h
  · rw [h]
  · rw [h, cacheFind_subscript_other _ _ _ hjk]
  · rw [h, cacheFind_cacheSet_other _ _ _ _ hjk, cacheFind_subscript_other _ _ _ hjk]

/-- C26 (key isolation). In every state the program can reach (any sequential run
of calls and handle drops from program start), and for every key `j` other
than `k`: after `fastLoadWidget k`, whatever the allocation outcome, `j` has
exactly the entry it had (so it has one if and only if it had one, and it
observes the same object), and the owner count of the object it observes is
what it was.  The first part holds in any state at all. -/
theorem C26_key_isolation (ops : List Op) (k j : Int) (allocOk : Bool) (hjk : j ≠ k) :
    cacheFind (fastLoadWidget (Client.run ops).world k allocOk).1.cache j
        = cacheFind (Client.run ops).world.cache j ∧
      ((cacheFind (fastLoadWidget (Client.run ops).world k allocOk).1.cache j).isSome
        = (cacheFind (Client.run ops).world.cache j).isSome) ∧
      (∀ id, cacheFind (Client.run ops).world.cache j = some (WeakPtr.obs id) →
        useCount (fastLoadWidget (Client.run ops).world k allocOk).1.heap id
          = useCount (Client.run ops).world.heap id) ∧
      (∀ s : World, cacheFind (fastLoadWidget s k allocOk).1.cache j = cacheFind s.cache j) := by
  have hsame := fastLoadWidget_other_entry (Client.run ops).world k j allocOk hjk
  refine ⟨hsame, by rw [hsame], ?_, fun s => fastLoadWidget_other_entry s k j allocOk hjk⟩
  intro id hj
  obtain ⟨hlen, hkey⟩ := Client.keyed_run ops
  have hprod := hkey j id hj
  have hlt : id < (Client.run ops).world.heap.length := by
    rw [← hlen]
    by_contra hge
    rw [List.getElem?_eq_none (Nat.le_of_not_lt hge)] at hprod
    cases hprod
  rcases hit_or_miss (Client.run ops).world k with ⟨id1, hentry, hlive⟩ | hmiss
  · obtain ⟨o, hget, hstrong, hcall⟩ :=
      fastLoadWidget_hit (Client.run ops).world k id1 allocOk hentry hlive
    rw [hcall]
    simp only
    rw [useCount_set]
    have hne : id1 ≠ id := by
      intro h
      subst h
      have hk2 := hkey k id1 hentry
      rw [hprod] at hk2
      exact hjk (Option.some.inj hk2)
    simp [hne]
  · rw [fastLoadWidget_miss _ k allocOk hmiss]
    cases allocOk with
    | false => rfl
    | true =>
      simp only [if_true]
      exact useCount_append_lt _ _ _ hlt

/-- C26 after keys 1 and 2 were loaded: a further call for key 1 leaves the entry
of key 2 and the owner count of its object as they were. -/
theorem C26_key_isolation_witness :
    cacheFind (fastLoadWidget (Client.run [Op.call 1 true, Op.call 2 true]).world 1 true).1.cache
        2 = some (WeakPtr.obs 1) ∧
      useCount (fastLoadWidget (Client.run [Op.call 1 true, Op.call 2 true]).world 1 true).1.heap
        1 = 1 :=
  have h := C26_key_isolation [Op.call 1 true, Op.call 2 true] 1 2 true (by decide)
  ⟨h.1.trans (by decide), (h.2.2.1 1 (by decide)).trans (by decide)⟩

end Item20
